import Mathlib

/-!
# Expense tracker (`script.js`): transaction store, aggregation and filtering

A shallow embedding of the data-carrying part of `script.js`: the two module
variables `transactions` / `nextId`, their mirror in `localStorage`, the form
handler that adds a record, `deleteTransaction`, and the computations inside
`updateSummary`, `applyFilters`, `generateCategoryChart` and
`generateMonthlyTrends`. DOM output is not modelled; each function returns the
data it would render.

Conventions of the embedding

* Numbers. An amount is an IEEE 754 binary64 value (`JSNumber`): `NaN`, an
  infinity, or a finite value given by sign, mantissa and binary exponent. `+` and
  `-` round the exact result to the nearest value, ties to the even mantissa, and
  `parseFloat` rounds the decimal value of the literal it reads in the same way.
  The sign of a zero is not kept. An id, like the counter `nextId`, is an
  integer-valued number and is held as an integer (`ℤ`); `parseInt` and `nextId++`
  round to the nearest binary64 value, so the counter does not advance past
  `2^53`. Counters of magnitude `2^1024` or more, which are infinite, are outside
  the embedding.
* Strings. A JavaScript string is a Lean `String`; a character of the basic plane
  stands for one code unit. The string methods whose result depends on the Unicode
  tables (`toUpperCase`, `localeCompare`) are parameters of the functions that call
  them.
* Objects used as dictionaries (`categoryTotals`, `monthlyData`) are association
  lists that hold the own keys in the order of their creation; `objectEntries` puts
  them in the order of `Object.entries`, array indices first. The names inherited
  from `Object.prototype` are listed in `inheritedNames`.
* `localStorage`. The value under `'nextId'` is kept as text. The value under
  `'transactions'` is absent, the text `JSON.stringify` writes for an array of
  records, or text on which `JSON.parse` throws.
* The clock (`new Date().toISOString()`) and the answer to `confirm(...)` are
  inputs of the operations that consult them.
-/

namespace ExpenseTracker

/-! ## Numbers -/

/-- A JavaScript number, that is an IEEE 754 binary64 value: `NaN`, an infinity, or the
finite value `(-1)^negative * mant * 2^exp`. Every zero is written `fin false 0 (-1074)`;
the sign of a zero is not kept (it is not observable through `+`, `-`, `===`, truthiness
or the sign of a comparator result). -/
inductive JSNumber where
  | nan
  | inf (negative : Bool)
  | fin (negative : Bool) (mant : Nat) (exp : Int)
  deriving DecidableEq, Repr

/-- Halving `n` until it is below 2, at most `fuel` times: the number of halvings. -/
def log2Aux : Nat → Nat → Nat
  | 0, _ => 0
  | fuel + 1, n => if n < 2 then 0 else log2Aux fuel (n / 2) + 1

/-- The position of the leading binary digit of `n` (`0` for `n = 0`). -/
def ilog2 (n : Nat) : Nat := log2Aux n n

/-- The largest `e0` or `e0 - 1` with `2^e <= n / d`, where `e0` is the difference of the
bit lengths: the binary exponent of the positive rational `n / d`. -/
def floorLog2 (n d : Nat) : Int :=
  let ln := ilog2 n
  let ld := ilog2 d
  if ld ≤ ln then
    if d * 2 ^ (ln - ld) ≤ n then ((ln - ld : Nat) : Int) else ((ln - ld : Nat) : Int) - 1
  else
    if d ≤ n * 2 ^ (ld - ln) then -((ld - ln : Nat) : Int) else -((ld - ln : Nat) : Int) - 1

/-- Round the non-negative rational `n / d` to the nearest binary64 value, ties to the
even mantissa: the mantissa and exponent of the result, or `none` when the result is
infinite. The unit in the last place is `2^(max e (-1022) - 52)` for the binary exponent
`e` of `n / d`, so values below `2^(-1022)` are rounded to multiples of `2^(-1074)`. -/
def roundRat (n d : Nat) : Option (Nat × Int) :=
  if n = 0 then some (0, -1074)
  else
    let e := floorLog2 n d
    let x : Int := (if e < -1022 then -1022 else e) - 52
    let p := n * 2 ^ (-x).toNat
    let r := d * 2 ^ x.toNat
    let k := p / r
    let rem := p % r
    let k1 := if r < 2 * rem ∨ (2 * rem = r ∧ k % 2 = 1) then k + 1 else k
    let m := if k1 = 2 ^ 53 then 2 ^ 52 else k1
    let x1 := if k1 = 2 ^ 53 then x + 1 else x
    if 971 < x1 then none else some (m, x1)

/-- The binary64 value nearest to `(-1)^negative * n / d`. -/
def JSNumber.ofRat (negative : Bool) (n d : Nat) : JSNumber :=
  match roundRat n d with
  | none => .inf negative
  | some (m, e) => if m = 0 then .fin false 0 (-1074) else .fin negative m e

/-- The binary64 value nearest to the integer multiple `z * 2^e` of a power of two. -/
def JSNumber.ofDyadic (z : Int) (e : Int) : JSNumber :=
  JSNumber.ofRat (decide (z < 0)) (z.natAbs * 2 ^ e.toNat) (2 ^ (-e).toNat)

/-- The binary64 value nearest to `(-1)^negative * digits * 10^exponent`: the value of a
decimal literal. -/
def JSNumber.ofDecimal (negative : Bool) (digits : Nat) (exponent : Int) : JSNumber :=
  JSNumber.ofRat negative (digits * 10 ^ exponent.toNat) (10 ^ (-exponent).toNat)

instance (n : Nat) : OfNat JSNumber n := ⟨JSNumber.ofDecimal false n 0⟩

instance : OfScientific JSNumber :=
  ⟨fun mantissa exponentSign decimalExponent =>
    JSNumber.ofDecimal false mantissa
      (if exponentSign then -(decimalExponent : Int) else (decimalExponent : Int))⟩

/-- Unary minus. -/
def JSNumber.neg : JSNumber → JSNumber
  | .nan => .nan
  | .inf negative => .inf (!negative)
  | .fin negative mant exp => if mant = 0 then .fin false 0 (-1074) else .fin (!negative) mant exp

instance : Neg JSNumber := ⟨JSNumber.neg⟩

/-- The signed mantissa of a finite value brought to the exponent `e` (at most its own). -/
def alignedMantissa (negative : Bool) (mant : Nat) (exp e : Int) : Int :=
  let z : Int := (mant * 2 ^ (exp - e).toNat : Nat)
  if negative then -z else z

/-- `a + b`: the exact sum rounded to binary64; `Infinity + -Infinity` is `NaN`. -/
def jsAdd : JSNumber → JSNumber → JSNumber
  | .nan, _ => .nan
  | _, .nan => .nan
  | .inf n1, .inf n2 => if n1 = n2 then .inf n1 else .nan
  | .inf n1, .fin _ _ _ => .inf n1
  | .fin _ _ _, .inf n2 => .inf n2
  | .fin n1 m1 e1, .fin n2 m2 e2 =>
    let e := if e1 ≤ e2 then e1 else e2
    JSNumber.ofDyadic (alignedMantissa n1 m1 e1 e + alignedMantissa n2 m2 e2 e) e

/-- `a - b`, which is `a + (-b)`. -/
def jsSub (a b : JSNumber) : JSNumber := jsAdd a (-b)

/-- Truthiness of a number: `NaN` and zero are falsy. -/
def JSNumber.truthy : JSNumber → Bool
  | .nan => false
  | .inf _ => true
  | .fin _ mant _ => mant ≠ 0

/-- `x > 0`. -/
def JSNumber.isPositive : JSNumber → Bool
  | .nan => false
  | .inf negative => !negative
  | .fin negative mant _ => !negative && mant ≠ 0

/-- `x || 0` for a number `x`. -/
def orZero (x : JSNumber) : JSNumber := if x.truthy then x else 0

/-- The sum `0 + a1 + a2 + ...` as the loops of the script compute it, left to right. -/
def jsSum (xs : List JSNumber) : JSNumber := xs.foldl jsAdd 0

/-- `x === 0`. -/
def JSNumber.isZero : JSNumber → Bool
  | .fin _ mant _ => mant = 0
  | _ => false

/-- `Number.isFinite(x)`. -/
def JSNumber.isFinite : JSNumber → Bool
  | .fin _ _ _ => true
  | _ => false

/-- The rational value of a finite number (`0` for `NaN` and the infinities). -/
def JSNumber.toRat : JSNumber → ℚ
  | .fin negative mant exp => (if negative then -(mant : ℚ) else (mant : ℚ)) * (2 : ℚ) ^ exp
  | _ => 0

/-- The value of a number on the extended rational line, `-Infinity` at the bottom and
`Infinity` at the top (`NaN`, which has no place on the line, is put at the bottom). -/
def JSNumber.value : JSNumber → WithBot (WithTop ℚ)
  | .nan => ⊥
  | .inf true => ⊥
  | .inf false => ((⊤ : WithTop ℚ) : WithBot (WithTop ℚ))
  | .fin negative mant exp =>
    (((JSNumber.fin negative mant exp).toRat : WithTop ℚ) : WithBot (WithTop ℚ))

/-! ## `parseFloat` and `parseInt` -/

/-- The characters skipped at the start of the argument of `parseFloat` / `parseInt`
(ECMAScript `StrWhiteSpaceChar`: white space and line terminators). -/
def isStrWhiteSpaceChar (c : Char) : Bool :=
  let n := c.toNat
  n = 0x09 || n = 0x0A || n = 0x0B || n = 0x0C || n = 0x0D || n = 0x20 || n = 0xA0 ||
  n = 0x1680 || (0x2000 ≤ n && n ≤ 0x200A) || n = 0x2028 || n = 0x2029 || n = 0x202F ||
  n = 0x205F || n = 0x3000 || n = 0xFEFF

/-- Value of a decimal digit character. -/
def digitVal (c : Char) : Nat := c.toNat - '0'.toNat

/-- Value of a run of decimal digits, most significant first. -/
def digitsVal (ds : List Char) : Nat := ds.foldl (fun acc c => 10 * acc + digitVal c) 0

/-- The longest run of decimal digits at the front, and what follows it. -/
def spanDigits (cs : List Char) : List Char × List Char := cs.span Char.isDigit

/-- Strip one leading sign; the flag says whether it was `-`. -/
def takeSign : List Char → Bool × List Char
  | '-' :: cs => (true, cs)
  | '+' :: cs => (false, cs)
  | cs => (false, cs)

/-- The exponent part `e[+-]?digits` at the front, if there is a complete one; otherwise `0`. -/
def exponentPart (cs : List Char) : Int :=
  match cs with
  | c :: rest =>
    if c = 'e' ∨ c = 'E' then
      let (neg, rest1) := takeSign rest
      let (ds, _) := spanDigits rest1
      if ds = [] then 0 else if neg then -(digitsVal ds : Int) else (digitsVal ds : Int)
    else 0
  | [] => 0

/-- The longest prefix that is an unsigned decimal literal
(`digits [. digits] [exp]` or `. digits [exp]`), as the value of its digits read as one
integer together with the power of ten to scale it by; `none` when there is no such
prefix. -/
def unsignedDecimal (cs : List Char) : Option (Nat × Int) :=
  let (ip, rest) := spanDigits cs
  match rest with
  | '.' :: rest1 =>
    let (fp, rest2) := spanDigits rest1
    if ip = [] ∧ fp = [] then none
    else some (digitsVal (ip ++ fp), exponentPart rest2 - (fp.length : Int))
  | _ =>
    if ip = [] then none else some (digitsVal ip, exponentPart rest)

/-- What the longest numeric prefix of a text denotes. -/
inductive StrLiteral where
  /-- The word `Infinity`, with the sign flag. -/
  | infinity (negative : Bool)
  /-- A decimal literal: sign flag, digits read as one integer, power of ten. -/
  | decimal (negative : Bool) (digits : Nat) (exponent : Int)
  deriving DecidableEq, Repr

/-- The longest prefix of the trimmed text that is a signed `Infinity` or a signed
decimal literal; `none` when there is no such prefix. -/
def strDecimalLiteral (s : String) : Option StrLiteral :=
  let cs := s.toList.dropWhile isStrWhiteSpaceChar
  let (neg, rest) := takeSign cs
  if "Infinity".toList.isPrefixOf rest then some (.infinity neg)
  else
    match unsignedDecimal rest with
    | none => none
    | some (m, e) => some (.decimal neg m e)

/-- The number a literal denotes: the binary64 value nearest to the decimal value. -/
def StrLiteral.value : StrLiteral → JSNumber
  | .infinity negative => .inf negative
  | .decimal negative digits exponent => JSNumber.ofDecimal negative digits exponent

/-- `parseFloat(x)` for `x` a string or `null`. `null` is first converted to the string
`"null"`, which has no numeric prefix. -/
def parseFloat (x : Option String) : JSNumber :=
  match x with
  | none => .nan
  | some s =>
    match strDecimalLiteral s with
    | none => .nan
    | some l => l.value

/-- Value of a hexadecimal digit character. -/
def hexDigitVal (c : Char) : Nat :=
  if c.isDigit then c.toNat - '0'.toNat
  else if 'a' ≤ c ∧ c ≤ 'f' then c.toNat - 'a'.toNat + 10
  else c.toNat - 'A'.toNat + 10

/-- Whether the character is a hexadecimal digit. -/
def isHexDigit (c : Char) : Bool :=
  c.isDigit || ('a' ≤ c && c ≤ 'f') || ('A' ≤ c && c ≤ 'F')

/-- Magnitude read by `parseInt` after the sign: radix 16 after a `0x` / `0X` prefix,
radix 10 otherwise; `none` when no digit follows. -/
def parseIntMagnitude : List Char → Option Nat
  | '0' :: 'x' :: cs | '0' :: 'X' :: cs =>
    let ds := cs.takeWhile isHexDigit
    if ds = [] then none else some (ds.foldl (fun acc c => 16 * acc + hexDigitVal c) 0)
  | cs =>
    let ds := cs.takeWhile Char.isDigit
    if ds = [] then none else some (digitsVal ds)

/-- The binary64 value nearest to an integer, as an integer: the integer itself up to
magnitude `2^53`, beyond that the nearest multiple of the spacing of binary64 values
there, ties to the even mantissa. (From `2^1024` on the nearest value is an infinity,
which an integer cannot hold; the integer is then returned unchanged.) -/
def roundInt (z : Int) : Int :=
  if z.natAbs ≤ 2 ^ 53 then z
  else
    match roundRat z.natAbs 1 with
    | some (m, e) =>
      if z < 0 then -((m * 2 ^ e.toNat : Nat) : Int) else ((m * 2 ^ e.toNat : Nat) : Int)
    | none => z

/-- `parseInt(x)` (no radix argument) for `x` a string or `null`: `none` is `NaN`,
otherwise the binary64 value nearest to the integer that was read. -/
def parseInt (x : Option String) : Option Int :=
  match x with
  | none => none
  | some s =>
    let cs := s.toList.dropWhile isStrWhiteSpaceChar
    let (neg, rest) := takeSign cs
    match parseIntMagnitude rest with
    | none => none
    | some n => some (roundInt (if neg then -(n : Int) else (n : Int)))

/-- `n + 1` on an integer-valued number: the binary64 value nearest to the exact
successor. Up to `2^53` that is the successor itself; at `2^53` it is `2^53` again. -/
def jsIncrement (n : Int) : Int := roundInt (n + 1)

/-- A number that can be compared by subtraction: not `NaN`, and if finite a multiple of
`2^(-1074)`, as every binary64 value is. -/
def JSNumber.Comparable (x : JSNumber) : Prop :=
  x ≠ .nan ∧ ∀ negative mant exp, x = .fin negative mant exp → -1074 ≤ exp

/-! ## Data model -/

/-- A transaction record (the object literal of `handleFormSubmit`, lines 96-105). The id
is an integer-valued number. -/
structure Transaction where
  id : Int
  amount : JSNumber
  type : String
  category : String
  paymentMethod : String
  date : String
  description : String
  timestamp : String
  deriving DecidableEq, Repr

/-- What `formData.get(name)` yields for the six fields read by `handleFormSubmit`;
`none` is JavaScript `null` (no such field in the form). -/
structure FormData where
  amount : Option String
  type : Option String
  category : Option String
  paymentMethod : Option String
  date : Option String
  description : Option String
  deriving DecidableEq, Repr

/-- The arguments of a `showMessage(message, type)` call. -/
structure Message where
  text : String
  kind : String
  deriving DecidableEq, Repr

/-- The value under the `localStorage` key `'transactions'`. -/
inductive StoredCollection where
  /-- No such key: `getItem` returns `null`. -/
  | absent
  /-- The text `JSON.stringify(ts)` for an array `ts` of records. -/
  | array (ts : List Transaction)
  /-- Text on which `JSON.parse` throws a `SyntaxError`. -/
  | malformed (text : String)
  deriving DecidableEq, Repr

/-- The module state: the variables of lines 2-3 and the two `localStorage` keys. -/
structure Store where
  transactions : List Transaction
  nextId : Int
  storedTransactions : StoredCollection
  storedNextId : Option String
  deriving DecidableEq, Repr

/-! ## The store: adding and deleting -/

/-- Truthiness of a string-or-`null` value: `null` and `""` are falsy. -/
def truthy (x : Option String) : Bool :=
  match x with
  | none => false
  | some s => s ≠ ""

/-- The object built at lines 96-105 when it passes the check of line 108: the parsed
amount is truthy (neither `NaN` nor zero) and the four other required fields are truthy.
`none` means the check fails. -/
def buildTransaction (formData : FormData) (now : String) (id : Int) : Option Transaction :=
  let amount := parseFloat formData.amount
  if amount.truthy && truthy formData.type && truthy formData.category &&
      truthy formData.paymentMethod && truthy formData.date then
    some { id := id
           amount := amount
           type := formData.type.getD ""
           category := formData.category.getD ""
           paymentMethod := formData.paymentMethod.getD ""
           date := formData.date.getD ""
           description := formData.description.getD ""
           timestamp := now }
  else none

/-- What a form submission leaves behind. -/
structure SubmitResult where
  store : Store
  message : Message
  /-- The record pushed at line 114, if any. -/
  pushed : Option Transaction
  deriving DecidableEq, Repr

/-- `handleFormSubmit` (lines 91-133). `nextId++` is evaluated while the object literal
is built, before the check of line 108; on failure the function returns at line 110, on
success it pushes the record and writes both `localStorage` keys. `nextId.toString()` is
the decimal numeral of the counter for a counter of magnitude up to `2^53`. -/
def handleFormSubmit (formData : FormData) (now : String) (s : Store) : SubmitResult :=
  let id := s.nextId
  let nextId := jsIncrement s.nextId
  match buildTransaction formData now id with
  | none =>
    { store := { s with nextId := nextId }
      message := ⟨"Please fill in all required fields.", "error"⟩
      pushed := none }
  | some transaction =>
    let transactions := s.transactions ++ [transaction]
    { store :=
        { transactions := transactions
          nextId := nextId
          storedTransactions := .array transactions
          storedNextId := some (toString nextId) }
      message := ⟨"Transaction added successfully!", "success"⟩
      pushed := some transaction }

/-- `deleteTransaction(id)` (lines 202-214); `confirmed` is the answer to the
`confirm(...)` dialog. Only the `'transactions'` key is written. -/
def deleteTransaction (confirmed : Bool) (id : Int) (s : Store) : Store :=
  if confirmed then
    let transactions := s.transactions.filter (fun t => t.id ≠ id)
    { s with transactions := transactions, storedTransactions := .array transactions }
  else s

/-- A user action on the store. -/
inductive Op where
  | add (formData : FormData) (now : String)
  | remove (confirmed : Bool) (id : Int)
  deriving DecidableEq, Repr

/-- One action. -/
def step (s : Store) : Op → Store
  | .add formData now => (handleFormSubmit formData now s).store
  | .remove confirmed id => deleteTransaction confirmed id s

/-- A session: the actions in order. -/
def run (s : Store) (ops : List Op) : Store := ops.foldl step s

/-- The records pushed during a session, in creation order. -/
def pushedRecords : Store → List Op → List Transaction
  | _, [] => []
  | s, .add formData now :: ops =>
    (handleFormSubmit formData now s).pushed.toList ++
      pushedRecords (handleFormSubmit formData now s).store ops
  | s, .remove confirmed id :: ops => pushedRecords (deleteTransaction confirmed id s) ops

/-! ## Module load -/

/-- An exception that aborts the script. -/
inductive JSError where
  | syntaxError
  deriving DecidableEq, Repr

/-- What `JSON.parse(JSON.stringify(t))` gives for a record. `JSON.stringify` writes an
amount that is `NaN` or infinite as `null`, and `JSON.parse` gives `null` back; in the sums
of the script a `null` amount counts as `0`, which is what the embedding puts there. -/
def jsonRoundTrip (t : Transaction) : Transaction :=
  if t.amount.isFinite then t else { t with amount := 0 }

/-- Line 2: `JSON.parse(localStorage.getItem('transactions')) || []`.
For an absent key `JSON.parse(null)` is `null`, which is falsy; an array is truthy, also
when empty; on malformed text `JSON.parse` throws and nothing catches it. -/
def loadTransactions : StoredCollection → Except JSError (List Transaction)
  | .absent => .ok []
  | .array ts => .ok (ts.map jsonRoundTrip)
  | .malformed _ => .error .syntaxError

/-- Line 3: `parseInt(localStorage.getItem('nextId')) || 1`; `NaN` and `0` are falsy. -/
def loadNextId (stored : Option String) : Int :=
  match parseInt stored with
  | none => 1
  | some n => if n = 0 then 1 else n

/-- Lines 2-3, run when the script is loaded. -/
def loadState (storedTransactions : StoredCollection) (storedNextId : Option String) :
    Except JSError Store :=
  match loadTransactions storedTransactions with
  | .error e => .error e
  | .ok transactions =>
    .ok { transactions := transactions
          nextId := loadNextId storedNextId
          storedTransactions := storedTransactions
          storedNextId := storedNextId }

/-- The array literal of `addSampleData` (lines 506-537); the three timestamps are three
readings of the clock. -/
def sampleTransactions (now1 now2 now3 : String) : List Transaction :=
  [ { id := 1, amount := 3000, type := "income", category := "salary",
      paymentMethod := "bank-transfer", date := "2025-10-01",
      description := "Monthly salary", timestamp := now1 },
    { id := 2, amount := 150.75, type := "expense", category := "groceries",
      paymentMethod := "credit-card", date := "2025-10-01",
      description := "Weekly grocery shopping", timestamp := now2 },
    { id := 3, amount := 45.20, type := "expense", category := "transportation",
      paymentMethod := "debit-card", date := "2025-09-30",
      description := "Gas fill-up", timestamp := now3 } ]

/-- `addSampleData` (lines 504-549), called at line 552 at the end of the script. -/
def addSampleData (now1 now2 now3 : String) (s : Store) : Store :=
  if s.transactions.length = 0 then
    let transactions := sampleTransactions now1 now2 now3
    let nextId : Int := 4
    { transactions := transactions
      nextId := nextId
      storedTransactions := .array transactions
      storedNextId := some (toString nextId) }
  else s

/-! ## Summary (`updateSummary`) -/

/-- The three figures `updateSummary` displays. -/
structure Summary where
  totalIncome : JSNumber
  totalExpenses : JSNumber
  totalBalance : JSNumber
  deriving DecidableEq, Repr

/-- `updateSummary` (lines 135-147): one pass over `transactions`; a record whose type is
not `'income'` goes to the `else` branch. -/
def updateSummary (transactions : List Transaction) : Summary :=
  let totals := transactions.foldl
    (fun (acc : JSNumber × JSNumber) transaction =>
      if transaction.type = "income" then (jsAdd acc.1 transaction.amount, acc.2)
      else (acc.1, jsAdd acc.2 transaction.amount))
    (0, 0)
  { totalIncome := totals.1
    totalExpenses := totals.2
    totalBalance := jsSub totals.1 totals.2 }

/-! ## Filtering (`applyFilters`) -/

/-- `s.startsWith(p)`. -/
def startsWith (s p : String) : Bool := p.toList.isPrefixOf s.toList

/-- `applyFilters` (lines 242-262): the list handed to `displayTransactions`. The three
arguments are the values of the filter controls; `""` is falsy and skips its filter. -/
def applyFilters (filterType filterCategory filterMonth : String)
    (transactions : List Transaction) : List Transaction :=
  let filtered := transactions
  let filtered :=
    if filterType ≠ "" then filtered.filter (fun t => t.type = filterType) else filtered
  let filtered :=
    if filterCategory ≠ "" then filtered.filter (fun t => t.category = filterCategory)
    else filtered
  let filtered :=
    if filterMonth ≠ "" then filtered.filter (fun t => startsWith t.date filterMonth)
    else filtered
  filtered

/-! ## Dictionaries and sorting -/

/-- `o[k]` for an own key: the value stored under `k`, `none` when `o` has no such key. -/
def objGet {β : Type} : List (String × β) → String → Option β
  | [], _ => none
  | (k1, v1) :: rest, k => if k1 = k then some v1 else objGet rest k

/-- `o[k] = v`: an existing key keeps its place, a new key goes last. The list holds the
own keys in the order in which they were created. -/
def objSet {β : Type} : List (String × β) → String → β → List (String × β)
  | [], k, v => [(k, v)]
  | (k1, v1) :: rest, k, v => if k1 = k then (k, v) :: rest else (k1, v1) :: objSet rest k v

/-- The property names every plain object inherits from `Object.prototype`. Reading such
a name from `{}` yields the inherited value, not `undefined`. -/
def inheritedNames : List String :=
  ["constructor", "__defineGetter__", "__defineSetter__", "hasOwnProperty",
    "__lookupGetter__", "__lookupSetter__", "isPrototypeOf", "propertyIsEnumerable",
    "toString", "valueOf", "__proto__", "toLocaleString"]

/-- The array index a key denotes, if it is one: a decimal numeral without superfluous
leading zero for an integer below `2^32 - 1`. -/
def arrayIndex (key : String) : Option Nat :=
  let cs := key.toList
  if cs ≠ [] ∧ cs.all Char.isDigit = true ∧ (cs.length = 1 ∨ cs.head? ≠ some '0') ∧
      digitsVal cs < 2 ^ 32 - 1 then
    some (digitsVal cs)
  else none

/-- The own keys in the order in which an object enumerates them: the array indices in
ascending numeric order first, then the other keys in the order of their creation. -/
def ownKeys (keys : List String) : List String :=
  (keys.filter (fun k => (arrayIndex k).isSome)).insertionSort
      (fun a b => (arrayIndex a).getD 0 ≤ (arrayIndex b).getD 0) ++
    keys.filter (fun k => (arrayIndex k).isNone)

/-- `Object.entries(o)`: the own entries in the order of `ownKeys`. -/
def objectEntries {β : Type} (o : List (String × β)) : List (String × β) :=
  (o.filter (fun e => (arrayIndex e.1).isSome)).insertionSort
      (fun a b => (arrayIndex a.1).getD 0 ≤ (arrayIndex b.1).getD 0) ++
    o.filter (fun e => (arrayIndex e.1).isNone)

/-- `xs.sort(compareFn)` where `before x y` says that `compareFn(x, y)` is not positive:
a stable sort. (When the comparator orders the elements consistently the result of a
stable sort is determined by the comparator alone; it is computed here by insertion.) -/
def arraySort {α : Type} (before : α → α → Prop) [DecidableRel before] (xs : List α) : List α :=
  xs.insertionSort before

/-! ## Category chart (`generateCategoryChart`) -/

/-- `category.split('-')` on the characters of the string. -/
def splitHyphen : List Char → List (List Char)
  | [] => [[]]
  | c :: cs =>
    if c = '-' then [] :: splitHyphen cs
    else
      match splitHyphen cs with
      | w :: ws => (c :: w) :: ws
      | [] => [[c]]

/-- `word.charAt(0).toUpperCase() + word.slice(1)`, where `toUpperCase` is the string
method of that name. An empty word stays empty. A first character outside the basic
plane is two code units, of which `charAt(0)` is the first alone, a surrogate that
`toUpperCase` leaves as it is: such a word is unchanged. -/
def capitalize (toUpperCase : String → String) : List Char → List Char
  | [] => []
  | c :: cs => if c.toNat < 0x10000 then (toUpperCase (String.mk [c])).toList ++ cs else c :: cs

/-- `getCategoryDisplayName` (lines 450-454). -/
def getCategoryDisplayName (toUpperCase : String → String) (category : String) : String :=
  String.mk ([' '].intercalate ((splitHyphen category.toList).map (capitalize toUpperCase)))

/-- What `toUpperCase()` returns on text made of characters below U+0080: the letters
`a` to `z` become `A` to `Z`. -/
def asciiUpperCase (s : String) : String := String.mk (s.toList.map Char.toUpper)

/-- The accumulation loop of `generateCategoryChart` (lines 281-290): the dictionary
`categoryTotals` and `totalExpenses`. In
`categoryTotals[category] = (categoryTotals[category] || 0) + transaction.amount`
a missing key reads as `undefined`, which `|| 0` turns into `0`. For the name
`__proto__` the assignment is the inherited setter, which ignores a value that is not an
object: no key is created. For the other names of `inheritedNames` the value read is an
inherited function and the sum is a string; the embedding, whose dictionary holds
numbers, treats them like any other name and the theorems exclude them. -/
def categoryTotals (toUpperCase : String → String) (transactions : List Transaction) :
    List (String × JSNumber) × JSNumber :=
  transactions.foldl
    (fun (acc : List (String × JSNumber) × JSNumber) transaction =>
      if transaction.type = "expense" then
        let category := getCategoryDisplayName toUpperCase transaction.category
        (if category = "__proto__" then acc.1
          else objSet acc.1 category
            (jsAdd (orZero ((objGet acc.1 category).getD 0)) transaction.amount),
          jsAdd acc.2 transaction.amount)
      else acc)
    ([], 0)

/-- `generateCategoryChart` (lines 277-299): the sorted `[category, amount]` pairs that
are rendered; none is rendered in the "no data" branch of line 292. The comparator
`([,a], [,b]) => b - a` puts `x` before `y` unless `y - x` is positive (a `NaN` result
counts as `0`). -/
def generateCategoryChart (toUpperCase : String → String) (transactions : List Transaction) :
    List (String × JSNumber) :=
  let (totals, totalExpenses) := categoryTotals toUpperCase transactions
  if totalExpenses.isZero then []
  else
    arraySort (fun x y : String × JSNumber => (jsSub y.2 x.2).isPositive = false)
      (objectEntries totals)

/-! ## Monthly trends (`generateMonthlyTrends`) -/

/-- A value of `monthlyData`. -/
structure MonthData where
  income : JSNumber
  expenses : JSNumber
  deriving DecidableEq, Repr

/-- The longest run of leading characters that fits into `n` code units; a character
outside the basic plane takes two. -/
def takeCodeUnits : Nat → List Char → List Char
  | _, [] => []
  | n, c :: cs =>
    if c.toNat < 0x10000 then
      if 1 ≤ n then c :: takeCodeUnits (n - 1) cs else []
    else
      if 2 ≤ n then c :: takeCodeUnits (n - 2) cs else []

/-- `date.substring(0, 7)`: the first seven code units. (When the seventh code unit is
the first half of a character outside the basic plane, the script's key ends in that
half, which a `String` cannot hold; the embedding then stops before that character.) -/
def monthOf (date : String) : String := String.mk (takeCodeUnits 7 date.toList)

/-- The grouping loop of `generateMonthlyTrends` (lines 321-334). A missing month is
first set to `{ income: 0, expenses: 0 }`; then the record's amount is added to `income`
when its type is `'income'` and to `expenses` otherwise. For a month that is one of
`inheritedNames` (`valueOf` has seven characters) the test `!monthlyData[month]` sees
the inherited, truthy value and the update goes to that inherited object: no key is
created. -/
def monthlyData (transactions : List Transaction) : List (String × MonthData) :=
  transactions.foldl
    (fun (acc : List (String × MonthData)) transaction =>
      let month := monthOf transaction.date
      if month ∈ inheritedNames then acc
      else
        let data := (objGet acc month).getD { income := 0, expenses := 0 }
        if transaction.type = "income" then
          objSet acc month { data with income := jsAdd data.income transaction.amount }
        else
          objSet acc month { data with expenses := jsAdd data.expenses transaction.amount })
    []

/-- `generateMonthlyTrends` (lines 317-342): the sorted `[month, data]` pairs that are
rendered; none is rendered in the "no data" branch of line 336. `localeCompare` is
the string method of that name; the comparator `([a], [b]) => b.localeCompare(a)` puts
`x` before `y` unless `y.localeCompare(x)` is positive. -/
def generateMonthlyTrends (localeCompare : String → String → Int)
    (transactions : List Transaction) : List (String × MonthData) :=
  arraySort (fun x y : String × MonthData => localeCompare y.1 x.1 ≤ 0)
    (objectEntries (monthlyData transactions))

/-! ## Concrete inputs used in the examples -/

/-- The state right after lines 2-3 when `localStorage` holds neither key. -/
def emptyStore : Store :=
  { transactions := [], nextId := 1, storedTransactions := .absent, storedNextId := none }

/-- The state a first visit ends up in: empty `localStorage`, lines 2-3, then
`addSampleData()` at line 552. -/
def firstVisit (now1 now2 now3 : String) : Store :=
  addSampleData now1 now2 now3 emptyStore

/-- A complete form: income 3000, salary, 2025-10-01. -/
def salaryForm : FormData :=
  { amount := some "3000", type := some "income", category := some "salary",
    paymentMethod := some "bank-transfer", date := some "2025-10-01",
    description := some "Monthly salary" }

/-- A complete form: expense 150.75, groceries, 2025-10-01. -/
def groceriesForm : FormData :=
  { amount := some "150.75", type := some "expense", category := some "groceries",
    paymentMethod := some "credit-card", date := some "2025-10-01",
    description := some "Weekly grocery shopping" }

/-- A complete form: expense 45.20, transportation, 2025-09-30. -/
def gasForm : FormData :=
  { amount := some "45.20", type := some "expense", category := some "transportation",
    paymentMethod := some "debit-card", date := some "2025-09-30",
    description := some "Gas fill-up" }

/-- A form submitted with the amount left empty. -/
def noAmountForm : FormData := { groceriesForm with amount := some "" }

/-- A complete form whose amount is the text `-5`. -/
def negativeAmountForm : FormData := { groceriesForm with amount := some "-5" }

/-- A complete form whose amount is the text `Infinity`. -/
def infiniteAmountForm : FormData := { groceriesForm with amount := some "Infinity" }

/-- A complete form whose type is neither `income` nor `expense`. -/
def transferForm : FormData :=
  { amount := some "5", type := some "transfer", category := some "savings",
    paymentMethod := some "bank-transfer", date := some "2025-10-02",
    description := some "" }

/-- The collection after `transferForm` is submitted to the empty store. -/
def transferList : List Transaction :=
  (handleFormSubmit transferForm "t" emptyStore).store.transactions

/-- The state a page load ends up in when it finds the stored collection `transferList`
and the stored counter text `9007199254740992`, which is `2^53`. -/
def largeCounterStore : Store :=
  { transactions := transferList, nextId := 9007199254740992,
    storedTransactions := .array transferList, storedNextId := some "9007199254740992" }

/-- An expense record with the given id, category and amount. -/
def expenseOf (id : Int) (category : String) (amount : JSNumber) : Transaction :=
  { id := id, amount := amount, type := "expense", category := category,
    paymentMethod := "cash", date := "2025-10-01", description := "", timestamp := "t" }

/-- Two expenses whose amounts cancel. -/
def offsettingList : List Transaction := [expenseOf 1 "food" 5, expenseOf 2 "rent" (-5)]

/-- Three expenses of 10 in the categories `b`, `2` and `1`. -/
def indexKeyList : List Transaction :=
  [expenseOf 1 "b" 10, expenseOf 2 "2" 10, expenseOf 3 "1" 10]

/-- One expense of 5 in the category `__proto__`. -/
def protoList : List Transaction := [expenseOf 1 "__proto__" 5]

/-- Three expenses in one category: `Infinity`, `-Infinity` and 5. -/
def infinityList : List Transaction :=
  [expenseOf 1 "food" (.inf false), expenseOf 2 "food" (.inf true), expenseOf 3 "food" 5]

/-! ## The shape shared by the two grouping loops -/

/-- One pass of a grouping loop: `o[key x] = f (o[key x], or init when missing) x`. -/
def groupStep {α β : Type} (key : α → String) (f : β → α → β) (init : β)
    (o : List (String × β)) (x : α) : List (String × β) :=
  objSet o (key x) (f ((objGet o (key x)).getD init) x)

/-- The keys of a dictionary after the key `k` has been written to. -/
def addKey (ks : List String) (k : String) : List String :=
  if k ∈ ks then ks else ks ++ [k]

/-! ## Vocabulary of the statements about the aggregations -/

/-- The records of type `expense`, in the order of the list. -/
def expenseRecords (ts : List Transaction) : List Transaction :=
  ts.filter (fun t => t.type = "expense")

/-- The sum of the amounts of a list of records, added up from `0` in the order of the
list. -/
def sumAmounts (ts : List Transaction) : JSNumber := jsSum (ts.map (fun t => t.amount))

/-- The category display names of the expense records, one per record, in the order of
the list. -/
def expenseNames (toUpperCase : String → String) (ts : List Transaction) : List String :=
  (expenseRecords ts).map (fun t => getCategoryDisplayName toUpperCase t.category)

/-- Three expenses, two of them with equal totals. -/
def tieList : List Transaction :=
  [ { id := 1, amount := 10, type := "expense", category := "food",
      paymentMethod := "cash", date := "2025-10-01", description := "", timestamp := "t" },
    { id := 2, amount := 20, type := "expense", category := "rent",
      paymentMethod := "cash", date := "2025-10-02", description := "", timestamp := "t" },
    { id := 3, amount := 10, type := "expense", category := "dining-out",
      paymentMethod := "cash", date := "2025-10-03", description := "", timestamp := "t" } ]

/-! ## Reloading -/

/-- A page load: lines 2-3 on the stored values, then `addSampleData()` (line 552). -/
def pageLoad (now1 now2 now3 : String) (storedTransactions : StoredCollection)
    (storedNextId : Option String) : Except JSError Store :=
  match loadState storedTransactions storedNextId with
  | .error e => .error e
  | .ok s => .ok (addSampleData now1 now2 now3 s)

/-- The stored values agree with the variables: lines 2-3 applied to them give back
exactly this state. -/
def Synced (s : Store) : Prop :=
  loadState s.storedTransactions s.storedNextId = .ok s

/-! ## The store over its lifetime -/

/-- What happens to the store over its lifetime: the user's actions and page loads. -/
inductive Event where
  | add (formData : FormData) (now : String)
  | remove (confirmed : Bool) (id : Int)
  | reload (now1 now2 now3 : String)
  deriving DecidableEq, Repr

/-- The store together with the ids given to records so far, oldest first. -/
structure Lifetime where
  store : Store
  issued : List Int
  deriving DecidableEq, Repr

/-- The ids of the records that `addSampleData` creates when called in state `s`. -/
def sampleIds (now1 now2 now3 : String) (s : Store) : List Int :=
  if s.transactions.length = 0 then (sampleTransactions now1 now2 now3).map (fun t => t.id)
  else []

/-- One event. A reload runs lines 2-3 on the stored values and then `addSampleData()`,
as `pageLoad` does. -/
def lifetimeStep (l : Lifetime) : Event → Except JSError Lifetime
  | .add formData now =>
    .ok { store := (handleFormSubmit formData now l.store).store
          issued := l.issued ++
            (handleFormSubmit formData now l.store).pushed.toList.map (fun t => t.id) }
  | .remove confirmed id =>
    .ok { store := deleteTransaction confirmed id l.store, issued := l.issued }
  | .reload now1 now2 now3 =>
    match loadState l.store.storedTransactions l.store.storedNextId with
    | .error e => .error e
    | .ok s =>
      .ok { store := addSampleData now1 now2 now3 s
            issued := l.issued ++ sampleIds now1 now2 now3 s }

/-- The events in order; a load that throws ends the run. -/
def lifetimeRun : Lifetime → List Event → Except JSError Lifetime
  | l, [] => .ok l
  | l, e :: es =>
    match lifetimeStep l e with
    | .error err => .error err
    | .ok l1 => lifetimeRun l1 es

/-- Empty `localStorage`, before the page is loaded for the first time. -/
def beforeFirstLoad : Lifetime := { store := emptyStore, issued := [] }

/-- No reload of the run finds an empty stored collection. -/
def NoEmptyReload : Lifetime → List Event → Prop
  | _, [] => True
  | l, e :: es =>
    (∀ now1 now2 now3, e = .reload now1 now2 now3 →
      loadTransactions l.store.storedTransactions ≠ .ok []) ∧
    ∀ l1, lifetimeStep l e = .ok l1 → NoEmptyReload l1 es

/-- The stored counter is positive and above every id issued so far, the counter in
memory is not below it, the issued ids are increasing, and the stored collection can be
loaded. -/
def CounterAhead (l : Lifetime) : Prop :=
  (∀ i ∈ l.issued, i < loadNextId l.store.storedNextId) ∧
  loadNextId l.store.storedNextId ≤ l.store.nextId ∧
  0 < loadNextId l.store.storedNextId ∧
  l.issued.Pairwise (fun a b => a < b) ∧
  ∃ ts, loadTransactions l.store.storedTransactions = .ok ts

/-- A lifetime in which the user adds one record, deletes every record and reloads the
page: first load, add (id 4), delete ids 1 to 4, reload. -/
def deleteAllThenReload : List Event :=
  [.reload "a" "b" "c", .add salaryForm "t1", .remove true 1, .remove true 2,
    .remove true 3, .remove true 4, .reload "d" "e" "f"]

/-! # Theorems -/

/-! ## Rounding to binary64 -/

theorem log2Aux_eq (fuel : Nat) : ∀ n, n ≤ fuel → log2Aux fuel n = Nat.log2 n := by
  induction fuel with
  | zero =>
    intro n hn
    have : n = 0 := by omega
    subst this
    simp [log2Aux, Nat.log2_zero]
  | succ fuel ih =>
    intro n hn
    rw [log2Aux, Nat.log2]
    by_cases h2 : n < 2
    · have : ¬ n ≥ 2 := by omega
      simp [h2, this]
    · have : n ≥ 2 := by omega
      simp only [h2, if_false, this, if_true]
      rw [ih (n / 2) (by omega)]

theorem ilog2_eq (n : Nat) : ilog2 n = Nat.log2 n := log2Aux_eq n n (le_refl n)

theorem floorLog2_le (n d : Nat) :
    floorLog2 n d ≤ (Nat.log2 n : Int) - (Nat.log2 d : Int) := by
  unfold floorLog2
  simp only [ilog2_eq]
  split_ifs <;> omega

/-- The exponent of the unit in the last place that `roundRat` works with. -/
theorem ulpExp_cases (n d : Nat) :
    ((if floorLog2 n d < -1022 then (-1022 : Int) else floorLog2 n d) - 52 = -1074 ∧
        floorLog2 n d ≤ -1022) ∨
      ((if floorLog2 n d < -1022 then (-1022 : Int) else floorLog2 n d) - 52 =
          floorLog2 n d - 52 ∧ -1022 < floorLog2 n d) := by
  split_ifs <;> omega

/-- The exponent of a rounded value is at least `-1074`. -/
theorem roundRat_exp_ge {n d m : Nat} {e : Int} (h : roundRat n d = some (m, e)) :
    -1074 ≤ e := by
  unfold roundRat at h
  simp only at h
  rcases ulpExp_cases n d with ⟨hx, _⟩ | ⟨hx, _⟩ <;> rw [hx] at h <;>
    split_ifs at h <;> simp only [Option.some.injEq, Prod.mk.injEq] at h <;> omega

/-- The quotient that `roundRat` starts from is at least 1 when `n / d` is at least
`2^(-1074)`. -/
theorem roundRat_scaled_le {n d : Nat} (hn : n ≠ 0) (hge : d ≤ n * 2 ^ 1074) :
    d * 2 ^ ((if floorLog2 n d < -1022 then (-1022 : Int) else floorLog2 n d) - 52).toNat ≤
      n * 2 ^ (-((if floorLog2 n d < -1022 then (-1022 : Int) else floorLog2 n d) - 52)).toNat := by
  have hfl := floorLog2_le n d
  have h1 : 2 ^ Nat.log2 n ≤ n := Nat.log2_self_le hn
  have h2 : d < 2 ^ (Nat.log2 d + 1) := Nat.lt_log2_self
  rcases ulpExp_cases n d with ⟨hx, _⟩ | ⟨hx, hc⟩
  · have ha : ((-1074 : Int)).toNat = 0 := rfl
    have hb : (-(-1074 : Int)).toNat = 1074 := rfl
    rw [hx, ha, hb, pow_zero, mul_one]
    exact hge
  · rw [hx]
    by_cases hpos : 0 ≤ floorLog2 n d - 52
    · obtain ⟨x, hxn⟩ := Int.eq_ofNat_of_zero_le hpos
      have hneg : (-(floorLog2 n d - 52)).toNat = 0 := by omega
      rw [hneg, hxn]
      simp only [Int.toNat_ofNat, pow_zero, mul_one]
      have hle : Nat.log2 d + 1 + x ≤ Nat.log2 n := by omega
      calc d * 2 ^ x ≤ 2 ^ (Nat.log2 d + 1) * 2 ^ x :=
            Nat.mul_le_mul_right _ (le_of_lt h2)
        _ = 2 ^ (Nat.log2 d + 1 + x) := (pow_add 2 (Nat.log2 d + 1) x).symm
        _ ≤ 2 ^ Nat.log2 n := Nat.pow_le_pow_right Nat.two_pos hle
        _ ≤ n := h1
    · have hneg : 0 ≤ -(floorLog2 n d - 52) := by omega
      obtain ⟨y, hyn⟩ := Int.eq_ofNat_of_zero_le hneg
      have hz : (floorLog2 n d - 52).toNat = 0 := by omega
      rw [hz, hyn]
      simp only [Int.toNat_ofNat, pow_zero, mul_one]
      have hle : Nat.log2 d + 1 ≤ Nat.log2 n + y := by omega
      calc d ≤ 2 ^ (Nat.log2 d + 1) := le_of_lt h2
        _ ≤ 2 ^ (Nat.log2 n + y) := Nat.pow_le_pow_right Nat.two_pos hle
        _ = 2 ^ Nat.log2 n * 2 ^ y := pow_add 2 (Nat.log2 n) y
        _ ≤ n * 2 ^ y := Nat.mul_le_mul_right _ h1

/-- A value of at least `2^(-1074)` is not rounded to zero. -/
theorem roundRat_mant_ne_zero {n d m : Nat} {e : Int} (hn : n ≠ 0) (hd : d ≠ 0)
    (hge : d ≤ n * 2 ^ 1074) (h : roundRat n d = some (m, e)) : m ≠ 0 := by
  have hle := roundRat_scaled_le hn hge
  unfold roundRat at h
  simp only [hn, if_false] at h
  have hr : 0 < d * 2 ^ ((if floorLog2 n d < -1022 then (-1022 : Int)
      else floorLog2 n d) - 52).toNat :=
    Nat.mul_pos (Nat.pos_of_ne_zero hd) (Nat.two_pow_pos _)
  have hk := (Nat.one_le_div_iff hr).mpr hle
  generalize n * 2 ^ (-((if floorLog2 n d < -1022 then (-1022 : Int)
      else floorLog2 n d) - 52)).toNat /
      (d * 2 ^ ((if floorLog2 n d < -1022 then (-1022 : Int)
      else floorLog2 n d) - 52).toNat) = k at h hk
  have h52 : (2 : Nat) ^ 52 ≠ 0 := pow_ne_zero _ two_ne_zero
  clear hge hle
  split_ifs at h <;> simp only [Option.some.injEq, Prod.mk.injEq] at h <;>
    first
    | (rw [← h.1]; exact h52)
    | (rw [← h.1]; omega)

/-! ## Sign of a difference -/

/-- What `ofRat` returns: an infinity of the given sign, a zero, or a finite value of the
given sign with a non-zero mantissa when the value is at least `2^(-1074)`. -/
theorem ofRat_cases (negative : Bool) {n d : Nat} (hn : n ≠ 0) (hd : d ≠ 0)
    (hge : d ≤ n * 2 ^ 1074) :
    JSNumber.ofRat negative n d = .inf negative ∨
      ∃ m e, m ≠ 0 ∧ -1074 ≤ e ∧ JSNumber.ofRat negative n d = .fin negative m e := by
  unfold JSNumber.ofRat
  cases h : roundRat n d with
  | none => exact Or.inl rfl
  | some p =>
    obtain ⟨m, e⟩ := p
    have hm := roundRat_mant_ne_zero hn hd hge h
    exact Or.inr ⟨m, e, hm, roundRat_exp_ge h, by simp [hm]⟩

theorem ofRat_zero (negative : Bool) (d : Nat) :
    JSNumber.ofRat negative 0 d = .fin false 0 (-1074) := by
  simp [JSNumber.ofRat, roundRat]

/-- The result of `ofRat` is never `NaN`, and a finite result has exponent at least
`-1074` and is written `fin false 0 (-1074)` when it is zero. -/
theorem ofRat_shape (negative : Bool) (n d : Nat) :
    JSNumber.ofRat negative n d = .inf negative ∨
      JSNumber.ofRat negative n d = .fin false 0 (-1074) ∨
      ∃ m e, m ≠ 0 ∧ -1074 ≤ e ∧ JSNumber.ofRat negative n d = .fin negative m e := by
  unfold JSNumber.ofRat
  cases h : roundRat n d with
  | none => exact Or.inl rfl
  | some p =>
    obtain ⟨m, e⟩ := p
    by_cases hm : m = 0
    · exact Or.inr (Or.inl (by simp [hm]))
    · exact Or.inr (Or.inr ⟨m, e, hm, roundRat_exp_ge h, by simp [hm]⟩)

set_option exponentiation.threshold 1100 in
/-- For an exponent of at least `-1074`, rounding `z * 2^e` keeps the sign of `z`. -/
theorem ofDyadic_isPositive (z e : Int) (he : -1074 ≤ e) :
    (JSNumber.ofDyadic z e).isPositive = true ↔ 0 < z := by
  unfold JSNumber.ofDyadic
  by_cases hz : z = 0
  · subst hz
    simp [ofRat_zero, JSNumber.isPositive]
  · have hn : z.natAbs * 2 ^ e.toNat ≠ 0 :=
      Nat.mul_ne_zero (Int.natAbs_ne_zero.mpr hz) (pow_ne_zero _ two_ne_zero)
    have hd : (2 : Nat) ^ (-e).toNat ≠ 0 := pow_ne_zero _ two_ne_zero
    have hge : 2 ^ (-e).toNat ≤ z.natAbs * 2 ^ e.toNat * 2 ^ 1074 := by
      have he1 : (-e).toNat ≤ 1074 := by omega
      have h1 := @Nat.pow_le_pow_right 2 Nat.two_pos _ _ he1
      have h2 : 1 ≤ z.natAbs * 2 ^ e.toNat := Nat.one_le_iff_ne_zero.mpr hn
      exact le_trans h1 (Nat.le_mul_of_pos_left _ h2)
    rcases ofRat_cases (decide (z < 0)) hn hd hge with h | ⟨m, e1, hm, _, h⟩
    · rw [h]
      simp only [JSNumber.isPositive, Bool.not_eq_true', decide_eq_false_iff_not]
      omega
    · rw [h]
      simp only [JSNumber.isPositive, Bool.and_eq_true, Bool.not_eq_true',
        decide_eq_false_iff_not, decide_eq_true_eq]
      constructor
      · rintro ⟨h1, _⟩
        omega
      · intro h1
        exact ⟨by omega, hm⟩

theorem alignedMantissa_value (negative : Bool) (mant : Nat) (exp e : Int) (h : e ≤ exp) :
    ((alignedMantissa negative mant exp e : Int) : ℚ) * (2 : ℚ) ^ e =
      (JSNumber.fin negative mant exp).toRat := by
  obtain ⟨k, hk⟩ := Int.eq_ofNat_of_zero_le (sub_nonneg.mpr h)
  have hexp : exp = (k : Int) + e := by omega
  have h2 : ((2 : ℚ) ^ k) * (2 : ℚ) ^ e = (2 : ℚ) ^ exp := by
    rw [hexp, zpow_add₀ (two_ne_zero), zpow_natCast]
  unfold alignedMantissa JSNumber.toRat
  simp only [hk, Int.toNat_ofNat]
  cases negative
  · simp only [Bool.false_eq_true, if_false]
    push_cast
    rw [mul_assoc, h2]
  · simp only [if_true]
    push_cast
    rw [← h2]
    ring

/-- For finite operands that are multiples of `2^(-1074)`, the rounded sum is positive
exactly when the exact sum is. -/
theorem jsAdd_isPositive (n1 : Bool) (m1 : Nat) (e1 : Int) (n2 : Bool) (m2 : Nat) (e2 : Int)
    (h1 : -1074 ≤ e1) (h2 : -1074 ≤ e2) :
    (jsAdd (.fin n1 m1 e1) (.fin n2 m2 e2)).isPositive = true ↔
      0 < (JSNumber.fin n1 m1 e1).toRat + (JSNumber.fin n2 m2 e2).toRat := by
  have key : ∀ e : Int, -1074 ≤ e → e ≤ e1 → e ≤ e2 →
      ((JSNumber.ofDyadic (alignedMantissa n1 m1 e1 e + alignedMantissa n2 m2 e2 e)
          e).isPositive = true ↔
        0 < (JSNumber.fin n1 m1 e1).toRat + (JSNumber.fin n2 m2 e2).toRat) := by
    intro e he hle1 hle2
    rw [ofDyadic_isPositive _ _ he, ← alignedMantissa_value n1 m1 e1 e hle1,
      ← alignedMantissa_value n2 m2 e2 e hle2, ← add_mul]
    have hpos : (0 : ℚ) < (2 : ℚ) ^ e := zpow_pos (by norm_num) e
    rw [mul_pos_iff_of_pos_right hpos]
    norm_cast
  unfold jsAdd
  by_cases hle : e1 ≤ e2
  · simp only [hle, if_true]
    exact key e1 h1 (le_refl _) hle
  · simp only [hle, if_false]
    exact key e2 h2 (by omega) (le_refl _)

theorem toRat_neg (negative : Bool) (mant : Nat) (exp : Int) :
    (-(JSNumber.fin negative mant exp)).toRat = -(JSNumber.fin negative mant exp).toRat := by
  show (JSNumber.neg (.fin negative mant exp)).toRat = _
  unfold JSNumber.neg
  by_cases hm : mant = 0
  · simp [hm, JSNumber.toRat]
  · cases negative <;> simp [hm, JSNumber.toRat]

/-- The comparator `(a, b) => b - a` is positive exactly when `b` is the larger value. -/
theorem jsSub_isPositive_iff {a b : JSNumber} (ha : a.Comparable) (hb : b.Comparable) :
    (jsSub b a).isPositive = true ↔ a.value < b.value := by
  obtain ⟨han, hae⟩ := ha
  obtain ⟨hbn, hbe⟩ := hb
  cases a with
  | nan => exact absurd rfl han
  | inf na =>
    cases b with
    | nan => exact absurd rfl hbn
    | inf nb =>
      cases na <;> cases nb <;>
        simp [jsSub, jsAdd, JSNumber.isPositive, JSNumber.value, Neg.neg, JSNumber.neg]
    | fin nb mb eb =>
      cases na <;>
        simp [jsSub, jsAdd, JSNumber.isPositive, JSNumber.value, Neg.neg, JSNumber.neg]
  | fin na ma ea =>
    cases b with
    | nan => exact absurd rfl hbn
    | inf nb =>
      cases nb <;> by_cases hm : ma = 0 <;>
        simp [jsSub, jsAdd, JSNumber.isPositive, JSNumber.value, Neg.neg, JSNumber.neg, hm] <;>
        exact WithBot.coe_lt_coe.mpr (WithTop.coe_lt_top _)
    | fin nb mb eb =>
      have h1 := hae na ma ea rfl
      have h2 := hbe nb mb eb rfl
      have hneg : ∃ n2 m2 e2, -(JSNumber.fin na ma ea) = .fin n2 m2 e2 ∧ -1074 ≤ e2 := by
        show ∃ n2 m2 e2, JSNumber.neg (.fin na ma ea) = .fin n2 m2 e2 ∧ -1074 ≤ e2
        unfold JSNumber.neg
        by_cases hm : ma = 0
        · exact ⟨false, 0, -1074, by simp [hm], le_refl _⟩
        · exact ⟨!na, ma, ea, by simp [hm], h1⟩
      obtain ⟨n2, m2, e2, hn, he2⟩ := hneg
      have hr := toRat_neg na ma ea
      rw [hn] at hr
      unfold jsSub
      rw [hn, jsAdd_isPositive nb mb eb n2 m2 e2 h2 he2, hr]
      simp only [JSNumber.value, WithBot.coe_lt_coe, WithTop.coe_lt_coe]
      constructor <;> intro h <;> linarith


/-! ## The arithmetic at known values -/

set_option exponentiation.threshold 3000 in
set_option maxRecDepth 100000 in
/-- Known values of binary64 arithmetic: `0.1 + 0.2` is `0.30000000000000004`, not `0.3`;
`0.3 - 0.1` is `0.19999999999999998`; `2^53 + 1` is `2^53` and `2^53 + 3` is `2^53 + 4`
(ties go to the even mantissa); the largest finite value added to itself is `Infinity`;
`Infinity - Infinity` is `NaN`. -/
theorem binary64_examples :
    jsAdd 0.1 0.2 = 0.30000000000000004 ∧ jsAdd 0.1 0.2 ≠ 0.3 ∧
    jsSub 0.3 0.1 = 0.19999999999999998 ∧
    jsAdd 9007199254740992 1 = 9007199254740992 ∧
    jsAdd 9007199254740992 3 = 9007199254740996 ∧
    jsAdd 1.7976931348623157e308 1.7976931348623157e308 = .inf false ∧
    jsSub (.inf false) (.inf false) = .nan := by
  decide

set_option exponentiation.threshold 3000 in
set_option maxRecDepth 100000 in
/-- Known values of `parseFloat`: underflow to `0`, overflow to `Infinity`, the smallest
positive value, a numeric prefix, and texts without one. -/
theorem parseFloat_examples :
    parseFloat (some "1e-400") = 0 ∧ parseFloat (some "1e400") = .inf false ∧
    parseFloat (some "5e-324") = .fin false 1 (-1074) ∧
    parseFloat (some "  12.5abc") = 12.5 ∧ parseFloat (some "-Infinity") = .inf true ∧
    parseFloat (some "abc") = .nan ∧ parseFloat (some ".") = .nan ∧
    parseFloat none = .nan := by
  decide

/-! ## Evaluation of the parsers on the texts used below -/

theorem parseFloat_3000 : parseFloat (some "3000") = 3000 := by decide

theorem parseFloat_150_75 : parseFloat (some "150.75") = 150.75 := by decide

theorem parseFloat_45_20 : parseFloat (some "45.20") = 45.20 := by decide

theorem parseFloat_5 : parseFloat (some "5") = 5 := by decide

theorem parseFloat_neg5 : parseFloat (some "-5") = -5 := by decide

theorem parseFloat_infinity : parseFloat (some "Infinity") = .inf false := by decide

theorem parseFloat_empty : parseFloat (some "") = .nan := by decide

theorem truthy_3000 : (3000 : JSNumber).truthy = true := by decide

theorem truthy_150_75 : (150.75 : JSNumber).truthy = true := by decide

theorem truthy_45_20 : (45.20 : JSNumber).truthy = true := by decide

theorem truthy_5 : (5 : JSNumber).truthy = true := by decide

theorem truthy_neg5 : (-5 : JSNumber).truthy = true := by decide

/-- A text with a truthy numeric value is not empty, and `null` has none. -/
theorem truthy_of_parseFloat {x : Option String} (h : (parseFloat x).truthy = true) :
    truthy x = true := by
  cases x with
  | none => simp [parseFloat, JSNumber.truthy] at h
  | some s =>
    by_cases hs : s = ""
    · subst hs
      rw [parseFloat_empty] at h
      simp [JSNumber.truthy] at h
    · simp [truthy, hs]

/-! ## Adding a record -/

theorem buildTransaction_id {formData : FormData} {now : String} {id : Int} {t : Transaction}
    (h : buildTransaction formData now id = some t) : t.id = id := by
  unfold buildTransaction at h
  simp only at h
  split_ifs at h
  simp only [Option.some.injEq] at h
  rw [← h]

theorem buildTransaction_amount {formData : FormData} {now : String} {id : Int}
    {t : Transaction} (h : buildTransaction formData now id = some t) :
    t.amount = parseFloat formData.amount ∧ t.amount.truthy = true := by
  unfold buildTransaction at h
  simp only at h
  split_ifs at h with hc
  simp only [Option.some.injEq] at h
  simp only [Bool.and_eq_true] at hc
  rw [← h]
  exact ⟨rfl, hc.1.1.1.1⟩

/-- The check of line 108, read off the model. -/
theorem buildTransaction_isSome (formData : FormData) (now : String) (id : Int) :
    (buildTransaction formData now id).isSome = true ↔
      (parseFloat formData.amount).truthy = true ∧ truthy formData.type = true ∧
        truthy formData.category = true ∧ truthy formData.paymentMethod = true ∧
        truthy formData.date = true := by
  unfold buildTransaction
  simp only
  split_ifs with hc
  · simp only [Bool.and_eq_true] at hc
    simp only [Option.isSome_some, true_iff]
    exact ⟨hc.1.1.1.1, hc.1.1.1.2, hc.1.1.2, hc.1.2, hc.2⟩
  · simp only [Option.isSome_none]
    constructor
    · intro hf
      exact absurd hf (by decide)
    · intro h
      exact absurd (by simp [h.1, h.2.1, h.2.2.1, h.2.2.2.1, h.2.2.2.2]) hc

theorem handleFormSubmit_nextId (formData : FormData) (now : String) (s : Store) :
    (handleFormSubmit formData now s).store.nextId = jsIncrement s.nextId := by
  cases hb : buildTransaction formData now s.nextId <;> simp [handleFormSubmit, hb]

/-- Below `2^53` the increment is exact. -/
theorem jsIncrement_eq {n : Int} (hlow : -(2 ^ 53 : Int) ≤ n) (hhigh : n + 1 ≤ 2 ^ 53) :
    jsIncrement n = n + 1 := by
  unfold jsIncrement roundInt
  rw [if_pos]
  omega

theorem handleFormSubmit_pushed (formData : FormData) (now : String) (s : Store) :
    (handleFormSubmit formData now s).pushed = buildTransaction formData now s.nextId := by
  cases hb : buildTransaction formData now s.nextId <;> simp [handleFormSubmit, hb]

theorem handleFormSubmit_pushed_id (formData : FormData) (now : String) (s : Store) :
    ∀ t ∈ (handleFormSubmit formData now s).pushed, t.id = s.nextId := by
  intro t ht
  rw [handleFormSubmit_pushed] at ht
  exact buildTransaction_id ht

theorem deleteTransaction_nextId (confirmed : Bool) (id : Int) (s : Store) :
    (deleteTransaction confirmed id s).nextId = s.nextId := by
  unfold deleteTransaction
  split <;> rfl

/-- Every record pushed during a session has an id at least the counter the session
started from, as long as the counter stays within `2^53`. -/
theorem pushedRecords_ge (s : Store) (ops : List Op) (hlow : -(2 ^ 53 : Int) ≤ s.nextId)
    (hhigh : s.nextId + ops.length ≤ 2 ^ 53) :
    ∀ t ∈ pushedRecords s ops, s.nextId ≤ t.id := by
  induction ops generalizing s with
  | nil => simp [pushedRecords]
  | cons op ops ih =>
    intro t ht
    simp only [List.length_cons, Nat.cast_add, Nat.cast_one] at hhigh
    cases op with
    | add formData now =>
      simp only [pushedRecords, List.mem_append, Option.mem_toList] at ht
      rcases ht with ht | ht
      · rw [handleFormSubmit_pushed_id formData now s t ht]
      · have hn := handleFormSubmit_nextId formData now s
        rw [jsIncrement_eq hlow (by omega)] at hn
        have := ih _ (by rw [hn]; omega) (by rw [hn]; omega) t ht
        rw [hn] at this
        omega
    | remove confirmed id =>
      simp only [pushedRecords] at ht
      have hn := deleteTransaction_nextId confirmed id s
      have := ih _ (by rw [hn]; exact hlow) (by rw [hn]; omega) t ht
      rwa [hn] at this

theorem pushedRecords_increasing (s : Store) (ops : List Op)
    (hlow : -(2 ^ 53 : Int) ≤ s.nextId) (hhigh : s.nextId + ops.length ≤ 2 ^ 53) :
    (pushedRecords s ops).Pairwise (fun a b => a.id < b.id) := by
  induction ops generalizing s with
  | nil => simp [pushedRecords]
  | cons op ops ih =>
    simp only [List.length_cons, Nat.cast_add, Nat.cast_one] at hhigh
    cases op with
    | add formData now =>
      have hn := handleFormSubmit_nextId formData now s
      rw [jsIncrement_eq hlow (by omega)] at hn
      simp only [pushedRecords]
      rw [List.pairwise_append]
      refine ⟨?_, ih _ (by rw [hn]; omega) (by rw [hn]; omega), ?_⟩
      · cases (handleFormSubmit formData now s).pushed <;> simp
      · intro a ha b hb
        rw [Option.mem_toList] at ha
        rw [handleFormSubmit_pushed_id formData now s a ha]
        have := pushedRecords_ge _ ops (by rw [hn]; omega) (by rw [hn]; omega) b hb
        rw [hn] at this
        omega
    | remove confirmed id =>
      have hn := deleteTransaction_nextId confirmed id s
      simp only [pushedRecords]
      exact ih _ (by rw [hn]; exact hlow) (by rw [hn]; omega)

theorem buildTransaction_salary (now : String) (id : Int) :
    buildTransaction salaryForm now id =
      some { id := id, amount := 3000, type := "income", category := "salary",
             paymentMethod := "bank-transfer", date := "2025-10-01",
             description := "Monthly salary", timestamp := now } := by
  simp [buildTransaction, salaryForm, parseFloat_3000, truthy_3000, truthy]

theorem buildTransaction_groceries (now : String) (id : Int) :
    buildTransaction groceriesForm now id =
      some { id := id, amount := 150.75, type := "expense", category := "groceries",
             paymentMethod := "credit-card", date := "2025-10-01",
             description := "Weekly grocery shopping", timestamp := now } := by
  simp [buildTransaction, groceriesForm, parseFloat_150_75, truthy_150_75, truthy]

theorem buildTransaction_gas (now : String) (id : Int) :
    buildTransaction gasForm now id =
      some { id := id, amount := 45.20, type := "expense", category := "transportation",
             paymentMethod := "debit-card", date := "2025-09-30",
             description := "Gas fill-up", timestamp := now } := by
  simp [buildTransaction, gasForm, parseFloat_45_20, truthy_45_20, truthy]

theorem buildTransaction_noAmount (now : String) (id : Int) :
    buildTransaction noAmountForm now id = none := by
  simp [buildTransaction, noAmountForm, groceriesForm, parseFloat_empty, JSNumber.truthy]

theorem jsIncrement_1 : jsIncrement 1 = 2 := by decide

theorem jsIncrement_2 : jsIncrement 2 = 3 := by decide

theorem jsIncrement_3 : jsIncrement 3 = 4 := by decide

theorem jsIncrement_4 : jsIncrement 4 = 5 := by decide

theorem jsIncrement_5 : jsIncrement 5 = 6 := by decide

/-- At `2^53` the counter no longer advances: `2^53 + 1` is not a binary64 value and
rounds back to `2^53`. -/
theorem jsIncrement_stuck : jsIncrement 9007199254740992 = 9007199254740992 := by decide

theorem transferList_eq :
    transferList =
      [{ id := 1, amount := 5, type := "transfer", category := "savings",
         paymentMethod := "bank-transfer", date := "2025-10-02", description := "",
         timestamp := "t" }] := by
  simp [transferList, handleFormSubmit, buildTransaction, parseFloat_5, truthy_5,
    transferForm, emptyStore, truthy]

/-- C1, counterexample. A page load that finds the counter text `9007199254740992`
(`2^53`) and a stored collection of one record gives a session whose counter is `2^53`;
two submissions accepted in that session push two records with the same id `2^53`,
because `nextId++` leaves the counter where it is. -/
theorem ids_repeat_once_counter_is_2_pow_53 :
    pageLoad "a" "b" "c" (.array transferList) (some "9007199254740992") =
      .ok largeCounterStore ∧
    (pushedRecords largeCounterStore [.add salaryForm "t1", .add groceriesForm "t2"]).map
      (fun t => t.id) = [9007199254740992, 9007199254740992] := by
  have hl : loadNextId (some "9007199254740992") = 9007199254740992 := by decide
  have hr : jsonRoundTrip
      { id := 1, amount := 5, type := "transfer", category := "savings",
        paymentMethod := "bank-transfer", date := "2025-10-02", description := "",
        timestamp := "t" } =
      { id := 1, amount := 5, type := "transfer", category := "savings",
        paymentMethod := "bank-transfer", date := "2025-10-02", description := "",
        timestamp := "t" } := by decide
  constructor
  · simp [pageLoad, loadState, loadTransactions, addSampleData, largeCounterStore, hl, hr,
      transferList_eq]
  · simp [pushedRecords, handleFormSubmit, buildTransaction_salary, buildTransaction_groceries,
      largeCounterStore, jsIncrement_stuck]

/-- C1, amended. In a session that starts with the counter at `-2^53` or above and in
which the counter does not pass `2^53` (the start value plus the number of actions is at
most `2^53`), for any sequence of form submissions (accepted or rejected) and deletions
the ids of the records that were pushed are strictly increasing in creation order, hence
pairwise distinct. -/
theorem add_ids_strictly_increasing (s : Store) (ops : List Op)
    (hlow : -(2 ^ 53 : Int) ≤ s.nextId) (hhigh : s.nextId + ops.length ≤ 2 ^ 53) :
    (pushedRecords s ops).Pairwise (fun a b => a.id < b.id) ∧
    ((pushedRecords s ops).map (fun t => t.id)).Nodup := by
  have h := pushedRecords_increasing s ops hlow hhigh
  refine ⟨h, ?_⟩
  rw [List.Nodup, List.pairwise_map]
  exact h.imp (fun hab => ne_of_lt hab)

/-- The example of the claim: from the empty store with counter 1, add, add, delete id 1,
add pushes the ids 1, 2, 3 and leaves the records 2 and 3. -/
theorem add_ids_example :
    (pushedRecords emptyStore
        [.add salaryForm "t1", .add groceriesForm "t2", .remove true 1,
          .add gasForm "t3"]).map (fun t => t.id) = [1, 2, 3] ∧
    (run emptyStore
        [.add salaryForm "t1", .add groceriesForm "t2", .remove true 1,
          .add gasForm "t3"]).transactions.map (fun t => t.id) = [2, 3] := by
  constructor
  · simp [pushedRecords, handleFormSubmit, buildTransaction_salary, buildTransaction_groceries,
      buildTransaction_gas, emptyStore, deleteTransaction, jsIncrement_1, jsIncrement_2]
  · simp [run, step, handleFormSubmit, buildTransaction_salary, buildTransaction_groceries,
      buildTransaction_gas, emptyStore, deleteTransaction, jsIncrement_1, jsIncrement_2]

/-- C1 at a concrete input: the session add, add, delete id 1, add from the empty store
(counter 1) stays far below `2^53`, and its pushed ids are strictly increasing and
distinct. -/
theorem add_ids_strictly_increasing_witness :
    -(2 ^ 53 : Int) ≤ emptyStore.nextId ∧
    emptyStore.nextId +
        ([.add salaryForm "t1", .add groceriesForm "t2", .remove true 1,
          .add gasForm "t3"] : List Op).length ≤ 2 ^ 53 ∧
    (pushedRecords emptyStore
        [.add salaryForm "t1", .add groceriesForm "t2", .remove true 1,
          .add gasForm "t3"]).Pairwise (fun a b => a.id < b.id) ∧
    ((pushedRecords emptyStore
        [.add salaryForm "t1", .add groceriesForm "t2", .remove true 1,
          .add gasForm "t3"]).map (fun t => t.id)).Nodup :=
  ⟨by decide, by decide,
    add_ids_strictly_increasing emptyStore
      [.add salaryForm "t1", .add groceriesForm "t2", .remove true 1, .add gasForm "t3"]
      (by decide) (by decide)⟩

/-- C2. A rejected submission at a concrete input: on a first visit (sample data loaded,
counter 4) a form with an empty amount is reported as an error and leaves the collection
and both stored values as they were, but the counter in memory has moved from 4 to 5. -/
theorem rejected_add_advances_nextId :
    (handleFormSubmit noAmountForm "t" (firstVisit "a" "b" "c")).message =
        ⟨"Please fill in all required fields.", "error"⟩ ∧
    (handleFormSubmit noAmountForm "t" (firstVisit "a" "b" "c")).pushed = none ∧
    (handleFormSubmit noAmountForm "t" (firstVisit "a" "b" "c")).store.transactions =
        (firstVisit "a" "b" "c").transactions ∧
    (handleFormSubmit noAmountForm "t" (firstVisit "a" "b" "c")).store.storedTransactions =
        (firstVisit "a" "b" "c").storedTransactions ∧
    (handleFormSubmit noAmountForm "t" (firstVisit "a" "b" "c")).store.storedNextId =
        (firstVisit "a" "b" "c").storedNextId ∧
    (firstVisit "a" "b" "c").nextId = 4 ∧
    (handleFormSubmit noAmountForm "t" (firstVisit "a" "b" "c")).store.nextId = 5 := by
  simp [handleFormSubmit, buildTransaction_noAmount, firstVisit, addSampleData, emptyStore,
    jsIncrement_4]

/-- What a rejected submission does in general: error message, nothing pushed, the
collection and both stored values untouched, the counter in memory incremented. -/
theorem handleFormSubmit_rejected (formData : FormData) (now : String) (s : Store)
    (h : buildTransaction formData now s.nextId = none) :
    handleFormSubmit formData now s =
      { store := { s with nextId := jsIncrement s.nextId }
        message := ⟨"Please fill in all required fields.", "error"⟩
        pushed := none } := by
  simp [handleFormSubmit, h]

/-- C3, counterexample. A complete form whose amount is `-5` is accepted: the amount
parses to `-5`, which is not greater than `0`, and a record with amount `-5` is appended
to the collection. A complete form whose amount is `Infinity` is accepted as well: the
amount parses to `Infinity`, which is not finite, and a record with that amount is
appended. -/
theorem negative_and_infinite_amounts_accepted :
    parseFloat negativeAmountForm.amount = -5 ∧
    (handleFormSubmit negativeAmountForm "t" emptyStore).message =
        ⟨"Transaction added successfully!", "success"⟩ ∧
    (handleFormSubmit negativeAmountForm "t" emptyStore).store.transactions.map
        (fun t => t.amount) = [-5] ∧
    (-5 : JSNumber).isPositive = false ∧
    parseFloat infiniteAmountForm.amount = .inf false ∧
    (handleFormSubmit infiniteAmountForm "t" emptyStore).message =
        ⟨"Transaction added successfully!", "success"⟩ ∧
    (handleFormSubmit infiniteAmountForm "t" emptyStore).store.transactions.map
        (fun t => t.amount) = [.inf false] ∧
    (JSNumber.inf false).isFinite = false := by
  have hn : buildTransaction negativeAmountForm "t" 1 =
      some { id := 1, amount := -5, type := "expense", category := "groceries",
             paymentMethod := "credit-card", date := "2025-10-01",
             description := "Weekly grocery shopping", timestamp := "t" } := by
    simp [buildTransaction, negativeAmountForm, groceriesForm, parseFloat_neg5, truthy_neg5,
      truthy]
  have hi : buildTransaction infiniteAmountForm "t" 1 =
      some { id := 1, amount := .inf false, type := "expense", category := "groceries",
             paymentMethod := "credit-card", date := "2025-10-01",
             description := "Weekly grocery shopping", timestamp := "t" } := by
    simp [buildTransaction, infiniteAmountForm, groceriesForm, parseFloat_infinity,
      JSNumber.truthy, truthy]
  refine ⟨parseFloat_neg5, ?_, ?_, by decide, parseFloat_infinity, ?_, ?_, rfl⟩ <;>
  simp [handleFormSubmit, hn, hi, emptyStore]

/-- C3, amended. A submission is accepted exactly when amount, type, category,
paymentMethod and date are all present (neither `null` nor empty) and the amount parses
to a number that is neither `NaN` nor zero; the number may be negative and it may be
infinite. An accepted submission appends one record, whose amount is the parsed amount
and whose id is the counter before the call; a rejected one appends nothing. -/
theorem add_accepts_iff (formData : FormData) (now : String) (s : Store) :
    ((handleFormSubmit formData now s).pushed.isSome = true ↔
      truthy formData.amount = true ∧ truthy formData.type = true ∧
      truthy formData.category = true ∧ truthy formData.paymentMethod = true ∧
      truthy formData.date = true ∧
      parseFloat formData.amount ≠ .nan ∧ (parseFloat formData.amount).isZero = false) ∧
    (∀ t, (handleFormSubmit formData now s).pushed = some t →
      (handleFormSubmit formData now s).store.transactions = s.transactions ++ [t] ∧
      t.amount = parseFloat formData.amount ∧ t.amount ≠ .nan ∧ t.amount.isZero = false ∧
      t.id = s.nextId) ∧
    ((handleFormSubmit formData now s).pushed = none →
      (handleFormSubmit formData now s).store.transactions = s.transactions) := by
  have htr : ∀ x : JSNumber, x.truthy = true ↔ x ≠ .nan ∧ x.isZero = false := by
    intro x
    cases x <;> simp [JSNumber.truthy, JSNumber.isZero]
  refine ⟨?_, ?_, ?_⟩
  · rw [handleFormSubmit_pushed, buildTransaction_isSome]
    constructor
    · rintro ⟨h0, h1, h2, h3, h4⟩
      exact ⟨truthy_of_parseFloat h0, h1, h2, h3, h4, (htr _).mp h0⟩
    · rintro ⟨_, h1, h2, h3, h4, h0⟩
      exact ⟨(htr _).mpr h0, h1, h2, h3, h4⟩
  · intro t ht
    have hb : buildTransaction formData now s.nextId = some t := by
      rw [← handleFormSubmit_pushed]; exact ht
    have ha := buildTransaction_amount hb
    refine ⟨?_, ha.1, ((htr _).mp ha.2).1, ((htr _).mp ha.2).2, buildTransaction_id hb⟩
    simp [handleFormSubmit, hb]
  · intro ht
    have hb : buildTransaction formData now s.nextId = none := by
      rw [← handleFormSubmit_pushed]; exact ht
    simp [handleFormSubmit, hb]

/-! ## Summary -/

set_option exponentiation.threshold 1100 in
set_option maxRecDepth 100000 in
theorem jsAdd_0_3000 : jsAdd 0 3000 = 3000 := by decide

set_option exponentiation.threshold 1100 in
set_option maxRecDepth 100000 in
theorem jsAdd_0_150_75 : jsAdd 0 150.75 = 150.75 := by decide

set_option exponentiation.threshold 1100 in
set_option maxRecDepth 100000 in
theorem jsAdd_0_45_20 : jsAdd 0 45.20 = 45.20 := by decide

theorem jsAdd_150_75_45_20 : jsAdd 150.75 45.20 = 195.95 := by decide

theorem jsSub_3000_195_95 : jsSub 3000 195.95 = 2804.05 := by decide

set_option exponentiation.threshold 1100 in
set_option maxRecDepth 100000 in
theorem jsAdd_0_5 : jsAdd 0 5 = 5 := by decide

set_option exponentiation.threshold 1100 in
set_option maxRecDepth 100000 in
theorem jsSub_0_5 : jsSub 0 5 = -5 := by decide

/-- The loop of `updateSummary` from any pair of running totals. -/
theorem updateSummary_foldl (ts : List Transaction) (acc : JSNumber × JSNumber) :
    ts.foldl
      (fun (acc : JSNumber × JSNumber) transaction =>
        if transaction.type = "income" then (jsAdd acc.1 transaction.amount, acc.2)
        else (acc.1, jsAdd acc.2 transaction.amount))
      acc =
    (((ts.filter (fun t => t.type = "income")).map (fun t => t.amount)).foldl jsAdd acc.1,
      ((ts.filter (fun t => t.type ≠ "income")).map (fun t => t.amount)).foldl jsAdd acc.2) := by
  induction ts generalizing acc with
  | nil => simp
  | cons t ts ih =>
    rw [List.foldl_cons, ih]
    by_cases h : t.type = "income"
    · simp [h]
    · simp [h]

/-- What `updateSummary` computes for every list: total income is the sum, from `0` and
in list order, of the amounts of the records of type `income`, total expenses the sum of
the amounts of all other records (exactly the records of type `expense` when every record
is of type `income` or `expense`), and the balance their difference; all three are 0 for
the empty list, and the three sample records give 3000, 195.95 and 2804.05. -/
theorem updateSummary_totals :
    (∀ ts : List Transaction,
      (updateSummary ts).totalIncome = sumAmounts (ts.filter (fun t => t.type = "income")) ∧
      (updateSummary ts).totalExpenses =
        sumAmounts (ts.filter (fun t => t.type ≠ "income")) ∧
      (updateSummary ts).totalBalance =
        jsSub (updateSummary ts).totalIncome (updateSummary ts).totalExpenses ∧
      ((∀ t ∈ ts, t.type = "income" ∨ t.type = "expense") →
        (updateSummary ts).totalExpenses = sumAmounts (expenseRecords ts))) ∧
    updateSummary [] = { totalIncome := 0, totalExpenses := 0, totalBalance := 0 } ∧
    (∀ now1 now2 now3 : String, updateSummary (sampleTransactions now1 now2 now3) =
      { totalIncome := 3000, totalExpenses := 195.95, totalBalance := 2804.05 }) := by
  refine ⟨fun ts => ?_, by decide, ?_⟩
  · have hI : (updateSummary ts).totalIncome =
        sumAmounts (ts.filter (fun t => t.type = "income")) := by
      simp [updateSummary, updateSummary_foldl, sumAmounts, jsSum]
    have hE : (updateSummary ts).totalExpenses =
        sumAmounts (ts.filter (fun t => t.type ≠ "income")) := by
      simp [updateSummary, updateSummary_foldl, sumAmounts, jsSum]
    refine ⟨hI, hE, rfl, fun hty => ?_⟩
    rw [hE, expenseRecords]
    congr 1
    apply List.filter_congr
    intro t ht
    rcases hty t ht with h | h <;> simp [h]
  · intro now1 now2 now3
    simp [updateSummary, sampleTransactions, jsAdd_0_3000, jsAdd_0_150_75, jsAdd_150_75_45_20,
      jsSub_3000_195_95]

/-- C4. The summary at a concrete input: the form with type `transfer` is accepted, the
collection then holds one record, of type `transfer` and amount 5, and no record of type
`expense`; `updateSummary` reports total expenses 5 and balance -5, while
`generateCategoryChart`, which selects the records of type `expense`, finds no expense
at all. -/
theorem summary_counts_transfer_as_expense :
    (handleFormSubmit transferForm "t" emptyStore).message =
      ⟨"Transaction added successfully!", "success"⟩ ∧
    transferList.map (fun t => (t.type, t.amount)) = [("transfer", 5)] ∧
    expenseRecords transferList = [] ∧
    updateSummary transferList =
      { totalIncome := 0, totalExpenses := 5, totalBalance := -5 } ∧
    (∀ toUpperCase : String → String, generateCategoryChart toUpperCase transferList = []) := by
  have hb : buildTransaction transferForm "t" 1 =
      some { id := 1, amount := 5, type := "transfer", category := "savings",
             paymentMethod := "bank-transfer", date := "2025-10-02", description := "",
             timestamp := "t" } := by
    simp [buildTransaction, parseFloat_5, truthy_5, transferForm, truthy]
  have h1 : jsAdd 0 5 = 5 := jsAdd_0_5
  have h2 : jsSub 0 5 = -5 := jsSub_0_5
  have h3 : (0 : JSNumber).isZero = true := by decide
  refine ⟨?_, ?_, ?_, ?_, ?_⟩
  · simp [handleFormSubmit, hb, emptyStore]
  · simp [transferList_eq]
  · simp [transferList_eq, expenseRecords]
  · simp [transferList_eq, updateSummary, h1, h2]
  · intro toUpperCase
    simp [transferList_eq, generateCategoryChart, categoryTotals, h3]

/-! ## Deleting -/

/-- C5. After a confirmed `deleteTransaction(id)` the collection is the old one without
the records of that id: no record with the id is left, every other record is kept, and
the relative order is the original one; the stored collection is the new collection. A
second call with the same id changes nothing at all, and a call with an id that no record
has leaves the collection as it was. -/
theorem deleteTransaction_removes_idempotent (id : Int) (s : Store) :
    (deleteTransaction true id s).transactions =
        s.transactions.filter (fun t => t.id ≠ id) ∧
    (∀ t ∈ (deleteTransaction true id s).transactions, t.id ≠ id) ∧
    (∀ t ∈ s.transactions, t.id ≠ id → t ∈ (deleteTransaction true id s).transactions) ∧
    List.Sublist (deleteTransaction true id s).transactions s.transactions ∧
    (deleteTransaction true id s).storedTransactions =
        .array (deleteTransaction true id s).transactions ∧
    deleteTransaction true id (deleteTransaction true id s) = deleteTransaction true id s ∧
    ((∀ t ∈ s.transactions, t.id ≠ id) →
        (deleteTransaction true id s).transactions = s.transactions) := by
  refine ⟨rfl, ?_, ?_, ?_, rfl, ?_, ?_⟩
  · intro t ht
    simp only [deleteTransaction, if_true, List.mem_filter, decide_eq_true_eq] at ht
    exact ht.2
  · intro t ht hne
    simp only [deleteTransaction, if_true, List.mem_filter, decide_eq_true_eq]
    exact ⟨ht, hne⟩
  · simp only [deleteTransaction, if_true]
    exact List.filter_sublist _
  · simp [deleteTransaction, List.filter_filter]
  · intro h
    simp only [deleteTransaction, if_true]
    rw [List.filter_eq_self]
    intro t ht
    simpa using h t ht

/-! ## Filtering -/

/-- A filter applied under a condition is a filter by the guarded predicate. -/
theorem filter_if {α : Type} (c : Prop) [Decidable c] (p : α → Bool) (l : List α) :
    (if c then l.filter p else l) = l.filter (fun t => decide (¬ c) || p t) := by
  by_cases h : c <;> simp [h]

theorem startsWith_iff (s p : String) : startsWith s p = true ↔ p.toList <+: s.toList := by
  simp [startsWith]

/-- C6. `applyFilters` returns exactly the records that satisfy every non-empty
criterion (type equal, category equal, date starting with the month text), in the order
of the input; with all criteria empty it returns the input unchanged, and with only the
type `expense` it returns exactly the records whose type is `expense`. -/
theorem applyFilters_spec (filterType filterCategory filterMonth : String)
    (ts : List Transaction) :
    applyFilters filterType filterCategory filterMonth ts =
      ts.filter (fun t =>
        decide ((filterType = "" ∨ t.type = filterType) ∧
          (filterCategory = "" ∨ t.category = filterCategory) ∧
          (filterMonth = "" ∨ filterMonth.toList <+: t.date.toList))) ∧
    List.Sublist (applyFilters filterType filterCategory filterMonth ts) ts ∧
    applyFilters "" "" "" ts = ts ∧
    applyFilters "expense" "" "" ts = ts.filter (fun t => t.type = "expense") := by
  have key : applyFilters filterType filterCategory filterMonth ts =
      ts.filter (fun t =>
        decide ((filterType = "" ∨ t.type = filterType) ∧
          (filterCategory = "" ∨ t.category = filterCategory) ∧
          (filterMonth = "" ∨ filterMonth.toList <+: t.date.toList))) := by
    simp only [applyFilters, filter_if]
    rw [List.filter_filter, List.filter_filter]
    apply List.filter_congr
    intro t _
    rw [Bool.eq_iff_iff]
    simp only [Bool.and_eq_true, Bool.or_eq_true, decide_eq_true_eq, startsWith_iff, ne_eq,
      not_not]
    tauto
  refine ⟨key, ?_, ?_, ?_⟩
  · rw [key]
    exact List.filter_sublist _
  · simp [applyFilters]
  · simp [applyFilters]

/-! ## Dictionaries -/

theorem objGet_objSet {β : Type} (o : List (String × β)) (k k1 : String) (v : β) :
    objGet (objSet o k v) k1 = if k = k1 then some v else objGet o k1 := by
  induction o with
  | nil => simp [objSet, objGet]
  | cons e rest ih =>
    obtain ⟨k0, v0⟩ := e
    by_cases h0 : k0 = k
    · subst h0
      by_cases h1 : k0 = k1 <;> simp [objSet, objGet, h1]
    · by_cases h1 : k0 = k1
      · subst h1
        simp [objSet, objGet, h0, Ne.symm h0]
      · simp [objSet, objGet, h0, h1, ih]

theorem keys_objSet {β : Type} (o : List (String × β)) (k : String) (v : β) :
    (objSet o k v).map Prod.fst = addKey (o.map Prod.fst) k := by
  induction o with
  | nil => simp [objSet, addKey]
  | cons e rest ih =>
    obtain ⟨k0, v0⟩ := e
    by_cases h0 : k0 = k
    · subst h0
      simp [objSet, addKey]
    · have hne : k ≠ k0 := Ne.symm h0
      simp only [objSet, h0, if_false, List.map_cons, ih, addKey, List.mem_cons, hne, false_or]
      split <;> simp

theorem objGet_eq_none {β : Type} (o : List (String × β)) (k : String) :
    objGet o k = none ↔ k ∉ o.map Prod.fst := by
  induction o with
  | nil => simp [objGet]
  | cons e rest ih =>
    obtain ⟨k0, v0⟩ := e
    by_cases h0 : k0 = k
    · subst h0
      simp [objGet]
    · simp [objGet, h0, ih, Ne.symm h0]

theorem objGet_of_mem {β : Type} {o : List (String × β)} (hn : (o.map Prod.fst).Nodup)
    {e : String × β} (he : e ∈ o) : objGet o e.1 = some e.2 := by
  induction o with
  | nil => simp at he
  | cons e0 rest ih =>
    obtain ⟨k0, v0⟩ := e0
    rw [List.map_cons, List.nodup_cons] at hn
    rcases List.mem_cons.mp he with h | h
    · subst h
      simp [objGet]
    · have hne : k0 ≠ e.1 := by
        intro hk
        apply hn.1
        rw [hk]
        exact List.mem_map.mpr ⟨e, h, rfl⟩
      simp [objGet, hne, ih hn.2 h]

/-! ## Keys in order of first appearance -/

theorem addKey_nodup {ks : List String} (h : ks.Nodup) (k : String) : (addKey ks k).Nodup := by
  unfold addKey
  split
  · exact h
  · rename_i hk
    rw [List.nodup_append]
    refine ⟨h, List.nodup_singleton k, ?_⟩
    intro a ha hb
    rw [List.mem_singleton] at hb
    subst hb
    exact hk ha

/-- Writing a run of keys appends the new ones behind the old ones. -/
theorem foldl_addKey_eq (names ks : List String) :
    ∃ suffix, names.foldl addKey ks = ks ++ suffix ∧
      ∀ k, k ∈ suffix ↔ k ∈ names ∧ k ∉ ks := by
  induction names generalizing ks with
  | nil => exact ⟨[], by simp⟩
  | cons n rest ih =>
    obtain ⟨suffix, hs, hm⟩ := ih (addKey ks n)
    by_cases hn : n ∈ ks
    · refine ⟨suffix, ?_, ?_⟩
      · rw [List.foldl_cons, hs]
        simp [addKey, hn]
      · intro k
        rw [hm]
        simp only [addKey, hn, if_true, List.mem_cons]
        constructor
        · rintro ⟨h1, h2⟩
          exact ⟨Or.inr h1, h2⟩
        · rintro ⟨h1 | h1, h2⟩
          · subst h1
            exact absurd hn h2
          · exact ⟨h1, h2⟩
    · refine ⟨n :: suffix, ?_, ?_⟩
      · rw [List.foldl_cons, hs]
        simp [addKey, hn]
      · intro k
        simp only [List.mem_cons, hm, addKey, hn, if_false, List.mem_append,
          List.mem_singleton, not_or]
        constructor
        · rintro (h | ⟨h1, h2, h3⟩)
          · subst h
            exact ⟨Or.inl rfl, hn⟩
          · exact ⟨Or.inr h1, h2⟩
        · rintro ⟨h1 | h1, h2⟩
          · exact Or.inl h1
          · by_cases hkn : k = n
            · exact Or.inl hkn
            · exact Or.inr ⟨h1, h2, by simpa using hkn⟩

theorem foldl_addKey_nodup (names : List String) {ks : List String} (h : ks.Nodup) :
    (names.foldl addKey ks).Nodup := by
  induction names generalizing ks with
  | nil => exact h
  | cons n rest ih => exact ih (addKey_nodup h n)

theorem mem_foldl_addKey (names ks : List String) (k : String) :
    k ∈ names.foldl addKey ks ↔ k ∈ ks ∨ k ∈ names := by
  obtain ⟨suffix, hs, hm⟩ := foldl_addKey_eq names ks
  rw [hs, List.mem_append, hm]
  by_cases h : k ∈ ks <;> simp [h]

/-- Two new keys appear in the dictionary in the order of their first occurrence. -/
theorem pair_sublist_foldl_addKey (names ks : List String) (x y : String)
    (hx : x ∉ ks) (hy : y ∉ ks) (hym : y ∈ names)
    (hlt : names.indexOf x < names.indexOf y) : List.Sublist [x, y] (names.foldl addKey ks) := by
  induction names generalizing ks with
  | nil => simp at hym
  | cons n rest ih =>
    rw [List.foldl_cons]
    by_cases hxn : n = x
    · subst hxn
      have hyn : n ≠ y := by
        intro h
        subst h
        simp at hlt
      have hyr : y ∈ rest := by
        rcases List.mem_cons.mp hym with h | h
        · exact absurd h.symm hyn
        · exact h
      obtain ⟨suffix, hs, hm⟩ := foldl_addKey_eq rest (addKey ks n)
      rw [hs]
      have hys : y ∈ suffix := by
        rw [hm]
        refine ⟨hyr, ?_⟩
        simp only [addKey, hx, if_false, List.mem_append, List.mem_singleton, not_or]
        exact ⟨hy, Ne.symm hyn⟩
      have h1 : List.Sublist [n] (addKey ks n) := by
        simp only [addKey, hx, if_false]
        exact List.sublist_append_right ks [n]
      have h2 : List.Sublist [y] suffix := List.singleton_sublist.mpr hys
      exact h1.append h2
    · rw [List.indexOf_cons_ne _ hxn] at hlt
      have hyn : n ≠ y := by
        intro h
        subst h
        simp at hlt
      rw [List.indexOf_cons_ne _ hyn] at hlt
      have hyr : y ∈ rest := by
        rcases List.mem_cons.mp hym with h | h
        · exact absurd h.symm hyn
        · exact h
      apply ih
      · unfold addKey
        split
        · exact hx
        · simp [hx, Ne.symm hxn]
      · unfold addKey
        split
        · exact hy
        · simp [hy, Ne.symm hyn]
      · exact hyr
      · omega

/-! ## Grouping loops -/

theorem keys_foldl_groupStep {α β : Type} (key : α → String) (f : β → α → β) (init : β)
    (xs : List α) (o : List (String × β)) :
    (xs.foldl (groupStep key f init) o).map Prod.fst =
      (xs.map key).foldl addKey (o.map Prod.fst) := by
  induction xs generalizing o with
  | nil => rfl
  | cons x rest ih =>
    rw [List.foldl_cons, ih, List.map_cons, List.foldl_cons]
    simp [groupStep, keys_objSet]

theorem objGet_foldl_groupStep {α β : Type} (key : α → String) (f : β → α → β) (init : β)
    (xs : List α) (o : List (String × β)) (k : String) :
    (objGet (xs.foldl (groupStep key f init) o) k).getD init =
      (xs.filter (fun x => key x = k)).foldl f ((objGet o k).getD init) := by
  induction xs generalizing o with
  | nil => rfl
  | cons x rest ih =>
    rw [List.foldl_cons, ih]
    by_cases hk : key x = k
    · simp [groupStep, objGet_objSet, hk]
    · simp [groupStep, objGet_objSet, hk]

/-- From a pair of keys in order to the pair of entries in order. -/
theorem pair_sublist_of_keys {β : Type} {o : List (String × β)}
    (hn : (o.map Prod.fst).Nodup) {x y : String × β} (hx : x ∈ o) (hy : y ∈ o)
    (h : List.Sublist [x.1, y.1] (o.map Prod.fst)) : List.Sublist [x, y] o := by
  obtain ⟨l, hl, hmap⟩ := List.sublist_map_iff.mp h
  rcases l with _ | ⟨a, _ | ⟨b, _ | ⟨c, l⟩⟩⟩
  · simp at hmap
  · simp at hmap
  · simp only [List.map_cons, List.map_nil, List.cons.injEq, and_true] at hmap
    have ha : a ∈ o := hl.subset (by simp)
    have hb : b ∈ o := hl.subset (by simp)
    have hax : a = x := List.inj_on_of_nodup_map hn ha hx hmap.1.symm
    have hby : b = y := List.inj_on_of_nodup_map hn hb hy hmap.2.symm
    rw [← hax, ← hby]
    exact hl
  · simp at hmap

/-! ## Sums of finite amounts -/

theorem zero_eq : (0 : JSNumber) = .fin false 0 (-1074) := by decide

theorem comparable_zero : (0 : JSNumber).Comparable := by
  rw [zero_eq]
  refine ⟨by simp, ?_⟩
  intro negative mant exp h
  simp only [JSNumber.fin.injEq] at h
  omega

/-- Adding a finite amount to a number that is not `NaN` gives a number that is not
`NaN`, and a zero result is `0`. -/
theorem jsAdd_shape (a b : JSNumber) (ha : a ≠ .nan) (hb : b.isFinite = true) :
    (jsAdd a b).Comparable ∧ ((jsAdd a b).truthy = false → jsAdd a b = 0) := by
  cases b with
  | nan => simp [JSNumber.isFinite] at hb
  | inf n2 => simp [JSNumber.isFinite] at hb
  | fin n2 m2 e2 =>
    cases a with
    | nan => exact absurd rfl ha
    | inf n1 =>
      refine ⟨⟨by simp [jsAdd], ?_⟩, ?_⟩
      · intro negative mant exp h
        simp [jsAdd] at h
      · intro h
        simp [jsAdd, JSNumber.truthy] at h
    | fin n1 m1 e1 =>
      have hs : ∀ (negative : Bool) (n d : Nat),
          (JSNumber.ofRat negative n d).Comparable ∧
            ((JSNumber.ofRat negative n d).truthy = false → JSNumber.ofRat negative n d = 0) := by
        intro negative n d
        rcases ofRat_shape negative n d with h | h | ⟨m, e, hm, he, h⟩
        · rw [h]
          refine ⟨⟨by simp, ?_⟩, ?_⟩
          · intro negative mant exp h1
            simp at h1
          · intro h1
            simp [JSNumber.truthy] at h1
        · rw [h]
          refine ⟨⟨by simp, ?_⟩, ?_⟩
          · intro negative mant exp h1
            simp only [JSNumber.fin.injEq] at h1
            omega
          · intro _
            exact zero_eq.symm
        · rw [h]
          refine ⟨⟨by simp, ?_⟩, ?_⟩
          · intro negative mant exp h1
            simp only [JSNumber.fin.injEq] at h1
            omega
          · intro h1
            simp [JSNumber.truthy, hm] at h1
      unfold jsAdd
      simp only [JSNumber.ofDyadic]
      exact hs _ _ _

theorem orZero_eq {v : JSNumber} (h0 : v.truthy = false → v = 0) : orZero v = v := by
  unfold orZero
  by_cases h : v.truthy = true
  · simp [h]
  · simp only [h]
    exact (h0 (by simpa using h)).symm

/-- A sum of finite amounts, started from a number that is not `NaN`. -/
theorem foldl_jsAdd_shape (xs : List JSNumber) (hfin : ∀ x ∈ xs, x.isFinite = true)
    (a : JSNumber) (ha : a.Comparable) (ha0 : a.truthy = false → a = 0) :
    (xs.foldl jsAdd a).Comparable ∧
      ((xs.foldl jsAdd a).truthy = false → xs.foldl jsAdd a = 0) := by
  induction xs generalizing a with
  | nil => exact ⟨ha, ha0⟩
  | cons x rest ih =>
    rw [List.foldl_cons]
    have hx := jsAdd_shape a x ha.1 (hfin x (by simp))
    exact ih (fun y hy => hfin y (by simp [hy])) _ hx.1 hx.2

theorem sumAmounts_shape (ts : List Transaction) (hfin : ∀ t ∈ ts, t.amount.isFinite = true) :
    (sumAmounts ts).Comparable ∧ ((sumAmounts ts).truthy = false → sumAmounts ts = 0) := by
  unfold sumAmounts jsSum
  apply foldl_jsAdd_shape _ _ _ comparable_zero (fun _ => rfl)
  intro x hx
  obtain ⟨t, ht, rfl⟩ := List.mem_map.mp hx
  exact hfin t ht

/-- On finite amounts the `|| 0` of the accumulation loop changes nothing. -/
theorem foldl_orZero_jsAdd (xs : List Transaction) (hfin : ∀ t ∈ xs, t.amount.isFinite = true)
    (a : JSNumber) (ha : a.Comparable) (ha0 : a.truthy = false → a = 0) :
    xs.foldl (fun v t => jsAdd (orZero v) t.amount) a =
      (xs.map (fun t => t.amount)).foldl jsAdd a := by
  induction xs generalizing a with
  | nil => rfl
  | cons x rest ih =>
    rw [List.foldl_cons, List.map_cons, List.foldl_cons, orZero_eq ha0]
    have hx := jsAdd_shape a x.amount ha.1 (hfin x (by simp))
    exact ih (fun y hy => hfin y (by simp [hy])) _ hx.1 hx.2

/-! ## Enumeration order of a dictionary -/

theorem objectEntries_perm {β : Type} (o : List (String × β)) : (objectEntries o).Perm o := by
  unfold objectEntries
  have h1 := List.perm_insertionSort
    (fun a b : String × β => (arrayIndex a.1).getD 0 ≤ (arrayIndex b.1).getD 0)
    (o.filter (fun e => (arrayIndex e.1).isSome))
  have h2 : (o.filter (fun e => (arrayIndex e.1).isNone)) =
      o.filter (fun e => !(arrayIndex e.1).isSome) := by
    congr 1
    funext e
    cases arrayIndex e.1 <;> rfl
  rw [h2]
  exact (h1.append_right _).trans (List.filter_append_perm _ o)

/-- In a list without repetition, two different members occur in one order or the
other. -/
theorem pair_sublist_or {α : Type} {l : List α} {x y : α} (hx : x ∈ l) (hy : y ∈ l)
    (hne : x ≠ y) : List.Sublist [x, y] l ∨ List.Sublist [y, x] l := by
  induction l with
  | nil => simp at hx
  | cons a rest ih =>
    rcases List.mem_cons.mp hx with hxa | hxr
    · subst hxa
      rcases List.mem_cons.mp hy with hya | hyr
      · exact absurd hya.symm hne
      · exact Or.inl ((List.singleton_sublist.mpr hyr).cons₂ _)
    · rcases List.mem_cons.mp hy with hya | hyr
      · subst hya
        exact Or.inr ((List.singleton_sublist.mpr hxr).cons₂ _)
      · rcases ih hxr hyr with h | h
        · exact Or.inl (h.cons _)
        · exact Or.inr (h.cons _)

/-- The order of two entries in `Object.entries`: an array index comes before a key that
is none, two array indices come in numeric order, and two other keys in the order of the
dictionary. -/
theorem pair_sublist_objectEntries {β : Type} {o : List (String × β)} {x y : String × β}
    (hx : x ∈ o) (hy : y ∈ o)
    (h : ((arrayIndex x.1).isSome = true ∧ (arrayIndex y.1).isNone = true) ∨
      (∃ i j, arrayIndex x.1 = some i ∧ arrayIndex y.1 = some j ∧ i < j) ∨
      ((arrayIndex x.1).isNone = true ∧ (arrayIndex y.1).isNone = true ∧
        List.Sublist [x, y] o)) :
    List.Sublist [x, y] (objectEntries o) := by
  unfold objectEntries
  have hperm := List.perm_insertionSort
    (fun a b : String × β => (arrayIndex a.1).getD 0 ≤ (arrayIndex b.1).getD 0)
    (o.filter (fun e => (arrayIndex e.1).isSome))
  rcases h with ⟨h1, h2⟩ | ⟨i, j, hi, hj, hij⟩ | ⟨h1, h2, hs⟩
  · have hx1 : x ∈ (o.filter (fun e => (arrayIndex e.1).isSome)).insertionSort
        (fun a b : String × β => (arrayIndex a.1).getD 0 ≤ (arrayIndex b.1).getD 0) :=
      hperm.mem_iff.mpr (List.mem_filter.mpr ⟨hx, h1⟩)
    have hy1 : y ∈ o.filter (fun e => (arrayIndex e.1).isNone) :=
      List.mem_filter.mpr ⟨hy, h2⟩
    exact (List.singleton_sublist.mpr hx1).append (List.singleton_sublist.mpr hy1)
  · have hx1 : x ∈ (o.filter (fun e => (arrayIndex e.1).isSome)).insertionSort
        (fun a b : String × β => (arrayIndex a.1).getD 0 ≤ (arrayIndex b.1).getD 0) :=
      hperm.mem_iff.mpr (List.mem_filter.mpr ⟨hx, by simp [hi]⟩)
    have hy1 : y ∈ (o.filter (fun e => (arrayIndex e.1).isSome)).insertionSort
        (fun a b : String × β => (arrayIndex a.1).getD 0 ≤ (arrayIndex b.1).getD 0) :=
      hperm.mem_iff.mpr (List.mem_filter.mpr ⟨hy, by simp [hj]⟩)
    have hne : x ≠ y := by
      intro hxy
      rw [hxy, hj] at hi
      simp only [Option.some.injEq] at hi
      omega
    haveI : IsTotal (String × β)
        (fun a b : String × β => (arrayIndex a.1).getD 0 ≤ (arrayIndex b.1).getD 0) :=
      ⟨fun a b => le_total _ _⟩
    haveI : IsTrans (String × β)
        (fun a b : String × β => (arrayIndex a.1).getD 0 ≤ (arrayIndex b.1).getD 0) :=
      ⟨fun a b c hab hbc => le_trans hab hbc⟩
    have hsorted := List.sorted_insertionSort
      (fun a b : String × β => (arrayIndex a.1).getD 0 ≤ (arrayIndex b.1).getD 0)
      (o.filter (fun e => (arrayIndex e.1).isSome))
    rcases pair_sublist_or hx1 hy1 hne with hs | hs
    · exact hs.trans (List.sublist_append_left _ _)
    · have hp := List.Pairwise.sublist hs hsorted
      simp only [List.pairwise_cons, List.mem_singleton, forall_eq] at hp
      have := hp.1
      rw [hi, hj] at this
      simp only [Option.getD_some] at this
      omega
  · have hf : List.Sublist ([x, y].filter (fun e => (arrayIndex e.1).isNone))
        (o.filter (fun e => (arrayIndex e.1).isNone)) := hs.filter _
    simp only [List.filter_cons, h1, h2, if_true, List.filter_nil] at hf
    exact hf.trans (List.sublist_append_right _ _)

/-! ## Sorting by a comparator that is an order on the entries at hand -/

theorem orderedInsert_congr {α : Type} (r s : α → α → Prop) [DecidableRel r] [DecidableRel s]
    (a : α) (l : List α) (h : ∀ b ∈ l, (r a b ↔ s a b)) :
    l.orderedInsert r a = l.orderedInsert s a := by
  induction l with
  | nil => rfl
  | cons b rest ih =>
    have hb := h b (by simp)
    by_cases hr : r a b
    · simp [List.orderedInsert, hr, hb.mp hr]
    · have hs : ¬ s a b := fun hs => hr (hb.mpr hs)
      simp only [List.orderedInsert, hr, hs, if_false]
      rw [ih (fun c hc => h c (by simp [hc]))]

theorem insertionSort_congr {α : Type} (r s : α → α → Prop) [DecidableRel r] [DecidableRel s]
    (l : List α) (h : ∀ a ∈ l, ∀ b ∈ l, (r a b ↔ s a b)) :
    l.insertionSort r = l.insertionSort s := by
  induction l with
  | nil => rfl
  | cons a rest ih =>
    have ih1 := ih (fun x hx y hy => h x (by simp [hx]) y (by simp [hy]))
    simp only [List.insertionSort]
    rw [ih1]
    apply orderedInsert_congr
    intro b hb
    have hb1 : b ∈ rest := (List.perm_insertionSort s rest).mem_iff.mp hb
    exact h a (by simp) b (by simp [hb1])

/-! ## Category chart -/

/-- The loop of `generateCategoryChart` only looks at the records of type `expense`; when
no display name is `__proto__` every one of them writes its key. -/
theorem categoryTotals_eq (toUpperCase : String → String) (ts : List Transaction)
    (hnames : ∀ k ∈ expenseNames toUpperCase ts, k ≠ "__proto__") :
    categoryTotals toUpperCase ts =
      ((expenseRecords ts).foldl
          (groupStep (fun t => getCategoryDisplayName toUpperCase t.category)
            (fun v t => jsAdd (orZero v) t.amount) 0) [],
        sumAmounts (expenseRecords ts)) := by
  have h : ∀ (ts : List Transaction) (acc : List (String × JSNumber) × JSNumber),
      (∀ k ∈ expenseNames toUpperCase ts, k ≠ "__proto__") →
      ts.foldl
        (fun (acc : List (String × JSNumber) × JSNumber) transaction =>
          if transaction.type = "expense" then
            let category := getCategoryDisplayName toUpperCase transaction.category
            (if category = "__proto__" then acc.1
              else objSet acc.1 category
                (jsAdd (orZero ((objGet acc.1 category).getD 0)) transaction.amount),
              jsAdd acc.2 transaction.amount)
          else acc)
        acc =
      ((expenseRecords ts).foldl
          (groupStep (fun t => getCategoryDisplayName toUpperCase t.category)
            (fun v t => jsAdd (orZero v) t.amount) 0) acc.1,
        ((expenseRecords ts).map (fun t => t.amount)).foldl jsAdd acc.2) := by
    intro ts
    induction ts with
    | nil => intro acc _; simp [expenseRecords]
    | cons t rest ih =>
      intro acc hn
      rw [List.foldl_cons]
      by_cases ht : t.type = "expense"
      · have hk : getCategoryDisplayName toUpperCase t.category ≠ "__proto__" :=
          hn _ (by simp [expenseNames, expenseRecords, ht])
        have hrest : ∀ k ∈ expenseNames toUpperCase rest, k ≠ "__proto__" := by
          intro k hk1
          apply hn
          simp only [expenseNames, expenseRecords, List.mem_map, List.mem_filter,
            decide_eq_true_eq] at hk1 ⊢
          obtain ⟨a, ⟨ha1, ha2⟩, ha3⟩ := hk1
          exact ⟨a, ⟨List.mem_cons_of_mem _ ha1, ha2⟩, ha3⟩
        rw [ih _ hrest]
        simp [expenseRecords, ht, hk, groupStep]
      · have hrest : ∀ k ∈ expenseNames toUpperCase rest, k ≠ "__proto__" := by
          intro k hk1
          apply hn
          simp only [expenseNames, expenseRecords, List.mem_map, List.mem_filter,
            decide_eq_true_eq] at hk1 ⊢
          obtain ⟨a, ⟨ha1, ha2⟩, ha3⟩ := hk1
          exact ⟨a, ⟨List.mem_cons_of_mem _ ha1, ha2⟩, ha3⟩
        rw [ih _ hrest]
        simp [expenseRecords, ht]
  unfold categoryTotals
  rw [h ts _ hnames]
  rfl

/-- The dictionary `categoryTotals` has one key per display name of an expense record, in
the order in which the names first occur, each holding the sum of that name's expense
amounts. -/
theorem categoryTotals_entries (toUpperCase : String → String) (ts : List Transaction)
    (hfin : ∀ t ∈ expenseRecords ts, t.amount.isFinite = true)
    (hnames : ∀ k ∈ expenseNames toUpperCase ts, k ≠ "__proto__") :
    ((categoryTotals toUpperCase ts).1.map Prod.fst).Nodup ∧
    (categoryTotals toUpperCase ts).1.map Prod.fst =
      (expenseNames toUpperCase ts).foldl addKey [] ∧
    (∀ e ∈ (categoryTotals toUpperCase ts).1,
      e.2 = sumAmounts (ts.filter (fun t =>
        t.type = "expense" ∧ getCategoryDisplayName toUpperCase t.category = e.1)) ∧
      e.2.Comparable) := by
  rw [categoryTotals_eq toUpperCase ts hnames]
  have hk := keys_foldl_groupStep
    (fun t : Transaction => getCategoryDisplayName toUpperCase t.category)
    (fun (v : JSNumber) t => jsAdd (orZero v) t.amount) 0 (expenseRecords ts) []
  have hn : ((List.foldl
      (groupStep (fun t : Transaction => getCategoryDisplayName toUpperCase t.category)
        (fun (v : JSNumber) t => jsAdd (orZero v) t.amount) 0) [] (expenseRecords ts)).map
      Prod.fst).Nodup := by
    rw [hk]
    exact foldl_addKey_nodup _ List.nodup_nil
  refine ⟨hn, hk, ?_⟩
  intro e he
  have hg := objGet_foldl_groupStep
    (fun t : Transaction => getCategoryDisplayName toUpperCase t.category)
    (fun (v : JSNumber) t => jsAdd (orZero v) t.amount) 0 (expenseRecords ts) [] e.1
  have hfin1 : ∀ t ∈ (expenseRecords ts).filter
      (fun t => getCategoryDisplayName toUpperCase t.category = e.1),
      t.amount.isFinite = true := fun t ht => hfin t (List.mem_filter.mp ht).1
  rw [objGet_of_mem hn he, foldl_orZero_jsAdd _ hfin1 _ (by simpa [objGet] using comparable_zero)
    (fun _ => by simp [objGet])] at hg
  simp only [Option.getD_some, objGet, Option.getD_none] at hg
  have hsum : e.2 = sumAmounts ((expenseRecords ts).filter
      (fun t => getCategoryDisplayName toUpperCase t.category = e.1)) := hg
  have hfilter : (expenseRecords ts).filter
      (fun t => getCategoryDisplayName toUpperCase t.category = e.1) =
      ts.filter (fun t =>
        t.type = "expense" ∧ getCategoryDisplayName toUpperCase t.category = e.1) := by
    rw [expenseRecords, List.filter_filter]
    apply List.filter_congr
    intro t _
    rw [Bool.eq_iff_iff]
    simp [and_comm]
  rw [hfilter] at hsum
  refine ⟨hsum, ?_⟩
  rw [hsum, ← hfilter]
  exact (sumAmounts_shape _ hfin1).1

/-- On numbers that are not `NaN`, the comparator of `generateCategoryChart` puts `x`
before `y` exactly when the value of `y` is at most the value of `x`. -/
theorem chart_before_iff {x y : String × JSNumber} (hx : x.2.Comparable)
    (hy : y.2.Comparable) :
    (jsSub y.2 x.2).isPositive = false ↔ y.2.value ≤ x.2.value := by
  rw [← not_lt, ← jsSub_isPositive_iff hx hy]
  simp

theorem inheritedNames_proto : "__proto__" ∈ inheritedNames := by decide

theorem getCategoryDisplayName_groceries :
    getCategoryDisplayName asciiUpperCase "groceries" = "Groceries" := by
  decide

theorem getCategoryDisplayName_transportation :
    getCategoryDisplayName asciiUpperCase "transportation" = "Transportation" := by
  decide

theorem getCategoryDisplayName_food : getCategoryDisplayName asciiUpperCase "food" = "Food" := by
  decide

theorem getCategoryDisplayName_rent : getCategoryDisplayName asciiUpperCase "rent" = "Rent" := by
  decide

theorem getCategoryDisplayName_dining_out :
    getCategoryDisplayName asciiUpperCase "dining-out" = "Dining Out" := by
  decide

/-- C7, amended. For every list whose expense amounts are finite and none of whose
expense display names is a name inherited from `Object.prototype`: when the expense
amounts add up to 0 (added from `0` in list order, in binary64 arithmetic), the result
of `generateCategoryChart` is empty. Otherwise it has one entry per category display
name occurring among the expense records, carrying the sum of that name's expense
amounts (added in list order), sorted by descending amount; two entries of equal amount
are in the order in which `Object.entries` lists them: a name that is an array index
before a name that is none, two array indices in ascending numeric order, and two other
names in the order in which they first occur in the list. -/
theorem generateCategoryChart_spec (toUpperCase : String → String) (ts : List Transaction)
    (hfin : ∀ t ∈ expenseRecords ts, t.amount.isFinite = true)
    (hnames : ∀ k ∈ expenseNames toUpperCase ts, k ∉ inheritedNames) :
    ((sumAmounts (expenseRecords ts)).isZero = true →
      generateCategoryChart toUpperCase ts = []) ∧
    ((sumAmounts (expenseRecords ts)).isZero = false →
      ((generateCategoryChart toUpperCase ts).map Prod.fst).Nodup ∧
      (∀ k, k ∈ (generateCategoryChart toUpperCase ts).map Prod.fst ↔
        k ∈ expenseNames toUpperCase ts) ∧
      (∀ e ∈ generateCategoryChart toUpperCase ts,
        e.2 = sumAmounts (ts.filter (fun t =>
          t.type = "expense" ∧ getCategoryDisplayName toUpperCase t.category = e.1))) ∧
      (generateCategoryChart toUpperCase ts).Pairwise (fun x y => y.2.value ≤ x.2.value) ∧
      (∀ x ∈ generateCategoryChart toUpperCase ts, ∀ y ∈ generateCategoryChart toUpperCase ts,
        x.2.value = y.2.value →
        (((arrayIndex x.1).isSome = true ∧ (arrayIndex y.1).isNone = true) ∨
          (∃ i j, arrayIndex x.1 = some i ∧ arrayIndex y.1 = some j ∧ i < j) ∨
          ((arrayIndex x.1).isNone = true ∧ (arrayIndex y.1).isNone = true ∧
            (expenseNames toUpperCase ts).indexOf x.1 <
              (expenseNames toUpperCase ts).indexOf y.1)) →
        List.Sublist [x, y] (generateCategoryChart toUpperCase ts))) := by
  have hproto : ∀ k ∈ expenseNames toUpperCase ts, k ≠ "__proto__" := by
    intro k hk hp
    rw [hp] at hk
    exact hnames _ hk inheritedNames_proto
  have h2 : (categoryTotals toUpperCase ts).2 = sumAmounts (expenseRecords ts) := by
    rw [categoryTotals_eq toUpperCase ts hproto]
  constructor
  · intro h0
    simp [generateCategoryChart, h2, h0]
  · intro h0
    have hres : generateCategoryChart toUpperCase ts =
        (objectEntries (categoryTotals toUpperCase ts).1).insertionSort
          (fun x y : String × JSNumber => (jsSub y.2 x.2).isPositive = false) := by
      simp [generateCategoryChart, h2, h0, arraySort]
    obtain ⟨hn, hk, hv⟩ := categoryTotals_entries toUpperCase ts hfin hproto
    have hpe := objectEntries_perm (categoryTotals toUpperCase ts).1
    have hperm := (List.perm_insertionSort
      (fun x y : String × JSNumber => (jsSub y.2 x.2).isPositive = false)
      (objectEntries (categoryTotals toUpperCase ts).1)).trans hpe
    have hcongr := insertionSort_congr
      (fun x y : String × JSNumber => (jsSub y.2 x.2).isPositive = false)
      (fun x y : String × JSNumber => y.2.value ≤ x.2.value)
      (objectEntries (categoryTotals toUpperCase ts).1)
      (fun a ha b hb => chart_before_iff (hv a (hpe.mem_iff.mp ha)).2
        (hv b (hpe.mem_iff.mp hb)).2)
    rw [hres]
    refine ⟨?_, ?_, ?_, ?_, ?_⟩
    · exact (hperm.map Prod.fst).nodup_iff.mpr hn
    · intro k
      rw [(hperm.map Prod.fst).mem_iff, hk, mem_foldl_addKey]
      simp
    · intro e he
      exact (hv e (hperm.mem_iff.mp he)).1
    · rw [hcongr]
      haveI : IsTotal (String × JSNumber)
          (fun x y : String × JSNumber => y.2.value ≤ x.2.value) :=
        ⟨fun a b => le_total _ _⟩
      haveI : IsTrans (String × JSNumber)
          (fun x y : String × JSNumber => y.2.value ≤ x.2.value) :=
        ⟨fun a b c hab hbc => le_trans hbc hab⟩
      exact List.sorted_insertionSort _ _
    · intro x hx y hy hxy hord
      have hx1 := hperm.mem_iff.mp hx
      have hy1 := hperm.mem_iff.mp hy
      have hpair : List.Sublist [x, y] (objectEntries (categoryTotals toUpperCase ts).1) := by
        apply pair_sublist_objectEntries hx1 hy1
        rcases hord with h | h | ⟨hxn, hyn, hlt⟩
        · exact Or.inl h
        · exact Or.inr (Or.inl h)
        · refine Or.inr (Or.inr ⟨hxn, hyn, ?_⟩)
          have hyn1 : y.1 ∈ expenseNames toUpperCase ts := by
            have : y.1 ∈ (categoryTotals toUpperCase ts).1.map Prod.fst :=
              List.mem_map.mpr ⟨y, hy1, rfl⟩
            rw [hk, mem_foldl_addKey] at this
            simpa using this
          have hkeys : List.Sublist [x.1, y.1]
              ((categoryTotals toUpperCase ts).1.map Prod.fst) := by
            rw [hk]
            exact pair_sublist_foldl_addKey _ [] x.1 y.1 (by simp) (by simp) hyn1 hlt
          exact pair_sublist_of_keys hn hx1 hy1 hkeys
      have hr : (jsSub y.2 x.2).isPositive = false :=
        (chart_before_iff (hv x hx1).2 (hv y hy1).2).mpr (le_of_eq hxy.symm)
      exact List.pair_sublist_insertionSort hr hpair

/-! ## The category chart at concrete inputs -/

set_option exponentiation.threshold 1100 in
set_option maxRecDepth 100000 in
theorem chart_sample (now1 now2 now3 : String) :
    generateCategoryChart asciiUpperCase (sampleTransactions now1 now2 now3) =
      [("Groceries", 150.75), ("Transportation", 45.20)] := by
  have h : (jsSub 45.20 150.75).isPositive = false := by decide
  have h0 : (jsAdd 150.75 45.20).isZero = false := by decide
  have hg : arrayIndex "Groceries" = none := by decide
  have ht : arrayIndex "Transportation" = none := by decide
  simp [generateCategoryChart, categoryTotals, sampleTransactions, arraySort, objectEntries,
    objSet, objGet, getCategoryDisplayName_groceries, getCategoryDisplayName_transportation,
    List.insertionSort, List.orderedInsert, jsAdd_0_150_75, jsAdd_0_45_20, orZero, h, h0, hg, ht]

set_option exponentiation.threshold 1100 in
set_option maxRecDepth 100000 in
theorem chart_tieList :
    generateCategoryChart asciiUpperCase tieList =
      [("Rent", 20), ("Food", 10), ("Dining Out", 10)] := by
  decide

set_option exponentiation.threshold 1100 in
set_option maxRecDepth 100000 in
theorem chart_offsettingList :
    expenseNames asciiUpperCase offsettingList = ["Food", "Rent"] ∧
    sumAmounts (expenseRecords offsettingList) = 0 ∧
    generateCategoryChart asciiUpperCase offsettingList = [] := by
  decide

set_option exponentiation.threshold 1100 in
set_option maxRecDepth 100000 in
theorem chart_indexKeyList :
    expenseNames asciiUpperCase indexKeyList = ["B", "2", "1"] ∧
    generateCategoryChart asciiUpperCase indexKeyList = [("1", 10), ("2", 10), ("B", 10)] := by
  decide

set_option exponentiation.threshold 1100 in
set_option maxRecDepth 100000 in
theorem chart_protoList :
    expenseNames asciiUpperCase protoList = ["__proto__"] ∧
    sumAmounts (expenseRecords protoList) = 5 ∧
    generateCategoryChart asciiUpperCase protoList = [] := by
  decide

set_option exponentiation.threshold 1100 in
set_option maxRecDepth 100000 in
theorem chart_infinityList :
    expenseNames asciiUpperCase infinityList = ["Food", "Food", "Food"] ∧
    sumAmounts (expenseRecords infinityList) = .nan ∧
    generateCategoryChart asciiUpperCase infinityList = [("Food", 5)] := by
  decide

/-- C7, counterexample. Four lists of expense records, with the display names computed
by the upper-casing of ASCII letters. Expenses of 5 (food) and -5 (rent): two display
names occur, the amounts add up to 0 and the result is empty. Expenses of 10 in the
categories `b`, `2` and `1`: the names are first encountered in the order B, 2, 1, the
three amounts are equal, and the result lists 1, 2, B. One expense of 5 in the category
`__proto__`: the total is 5, not 0, and the result has no entry. Expenses of `Infinity`,
`-Infinity` and 5 in one category: the sum of the amounts is `NaN`, the entry carries
5. -/
theorem chart_differs_from_claim :
    (expenseNames asciiUpperCase offsettingList = ["Food", "Rent"] ∧
      sumAmounts (expenseRecords offsettingList) = 0 ∧
      generateCategoryChart asciiUpperCase offsettingList = []) ∧
    (expenseNames asciiUpperCase indexKeyList = ["B", "2", "1"] ∧
      generateCategoryChart asciiUpperCase indexKeyList =
        [("1", 10), ("2", 10), ("B", 10)]) ∧
    (expenseNames asciiUpperCase protoList = ["__proto__"] ∧
      sumAmounts (expenseRecords protoList) = 5 ∧
      generateCategoryChart asciiUpperCase protoList = []) ∧
    (expenseNames asciiUpperCase infinityList = ["Food", "Food", "Food"] ∧
      sumAmounts (expenseRecords infinityList) = .nan ∧
      generateCategoryChart asciiUpperCase infinityList = [("Food", 5)]) :=
  ⟨chart_offsettingList, chart_indexKeyList, chart_protoList, chart_infinityList⟩

set_option exponentiation.threshold 1100 in
set_option maxRecDepth 100000 in
theorem tieList_hypotheses :
    (∀ t ∈ expenseRecords tieList, t.amount.isFinite = true) ∧
    (∀ k ∈ expenseNames asciiUpperCase tieList, k ∉ inheritedNames) ∧
    (sumAmounts (expenseRecords tieList)).isZero = false := by
  decide

/-- C7 at a concrete input: the expenses of `tieList` are finite, its display names Food,
Rent and Dining Out are not inherited names, its total is not 0, and its chart has
distinct names and descending amounts. -/
theorem generateCategoryChart_spec_witness :
    (∀ t ∈ expenseRecords tieList, t.amount.isFinite = true) ∧
    (∀ k ∈ expenseNames asciiUpperCase tieList, k ∉ inheritedNames) ∧
    (sumAmounts (expenseRecords tieList)).isZero = false ∧
    ((generateCategoryChart asciiUpperCase tieList).map Prod.fst).Nodup ∧
    (generateCategoryChart asciiUpperCase tieList).Pairwise
      (fun x y => y.2.value ≤ x.2.value) :=
  ⟨tieList_hypotheses.1, tieList_hypotheses.2.1, tieList_hypotheses.2.2,
    ((generateCategoryChart_spec asciiUpperCase tieList tieList_hypotheses.1
      tieList_hypotheses.2.1).2 tieList_hypotheses.2.2).1,
    ((generateCategoryChart_spec asciiUpperCase tieList tieList_hypotheses.1
      tieList_hypotheses.2.1).2 tieList_hypotheses.2.2).2.2.2.1⟩

/-! ## Monthly trends -/

theorem monthOf_2025_10_01 : monthOf "2025-10-01" = "2025-10" := by decide

theorem monthOf_2025_09_30 : monthOf "2025-09-30" = "2025-09" := by decide

theorem monthOf_2025_10_02 : monthOf "2025-10-02" = "2025-10" := by decide

/-- The example of the specification: whenever `localeCompare` puts `2025-09` before
`2025-10`, the three sample records give 2025-10 with income 3000 and expenses 150.75,
then 2025-09 with income 0 and expenses 45.20. -/
theorem trends_sample (localeCompare : String → String → Int)
    (h : localeCompare "2025-09" "2025-10" ≤ 0) (now1 now2 now3 : String) :
    generateMonthlyTrends localeCompare (sampleTransactions now1 now2 now3) =
      [("2025-10", { income := 3000, expenses := 150.75 }),
        ("2025-09", { income := 0, expenses := 45.20 })] := by
  have h1 : ¬ ("2025-10" : String) = "2025-09" := by decide
  have h2 : "2025-10" ∉ inheritedNames := by decide
  have h3 : "2025-09" ∉ inheritedNames := by decide
  have h4 : arrayIndex "2025-10" = none := by decide
  have h5 : arrayIndex "2025-09" = none := by decide
  simp [generateMonthlyTrends, monthlyData, sampleTransactions, arraySort, objectEntries, objSet,
    objGet, monthOf_2025_10_01, monthOf_2025_09_30, List.insertionSort, List.orderedInsert,
    h, h1, h2, h3, h4, h5, jsAdd_0_3000, jsAdd_0_150_75, jsAdd_0_45_20]

/-- C8. The monthly trends at a concrete input: the collection that holds the one
accepted record of type `transfer` (amount 5, date 2025-10-02) has no record of type
`expense` in the month 2025-10, yet `generateMonthlyTrends` reports that month with
expenses 5, whatever `localeCompare` is; `generateCategoryChart`, which selects the
records of type `expense`, finds no expense at all. -/
theorem trends_count_transfer_as_expense :
    (∀ localeCompare : String → String → Int,
      generateMonthlyTrends localeCompare transferList =
        [("2025-10", { income := 0, expenses := 5 })]) ∧
    transferList.filter (fun t => monthOf t.date = "2025-10" ∧ t.type = "expense") = [] ∧
    (∀ toUpperCase : String → String, generateCategoryChart toUpperCase transferList = []) := by
  have h2 : "2025-10" ∉ inheritedNames := by decide
  have h3 : (0 : JSNumber).isZero = true := by decide
  have h4 : arrayIndex "2025-10" = none := by decide
  rw [transferList_eq]
  refine ⟨?_, ?_, ?_⟩
  · intro localeCompare
    simp [generateMonthlyTrends, monthlyData, arraySort, objectEntries, objSet, objGet,
      monthOf_2025_10_02, h2, h4, jsAdd_0_5]
  · simp
  · intro toUpperCase
    simp [generateCategoryChart, categoryTotals, h3]

/-! ## Writing the counter and reading it back -/

theorem digitChar_spec (k : Nat) (h : k < 10) :
    (Nat.digitChar k).isDigit = true ∧ digitVal (Nat.digitChar k) = k := by
  interval_cases k <;> decide

theorem digitsVal_append_singleton (L : List Char) (d : Char) :
    digitsVal (L ++ [d]) = 10 * digitsVal L + digitVal d := by
  simp [digitsVal, List.foldl_append]

/-- The decimal digits that `toString` prints for a natural number. -/
theorem toDigitsCore_spec (fuel : Nat) :
    ∀ (n : Nat) (ds : List Char), n < fuel →
      ∃ L, Nat.toDigitsCore 10 fuel n ds = L ++ ds ∧ L ≠ [] ∧
        (∀ c ∈ L, c.isDigit = true) ∧ digitsVal L = n := by
  induction fuel with
  | zero => intro n ds h; omega
  | succ fuel ih =>
    intro n ds h
    have hd := digitChar_spec (n % 10) (Nat.mod_lt n (by norm_num))
    by_cases h0 : n / 10 = 0
    · refine ⟨[Nat.digitChar (n % 10)], ?_, by simp, ?_, ?_⟩
      · simp [Nat.toDigitsCore, h0]
      · intro c hc
        rw [List.mem_singleton] at hc
        rw [hc]
        exact hd.1
      · have : digitsVal [Nat.digitChar (n % 10)] = digitVal (Nat.digitChar (n % 10)) := by
          simp [digitsVal]
        rw [this, hd.2]
        omega
    · have hlt : n / 10 < fuel := by omega
      obtain ⟨L, hL, _, hall, hval⟩ := ih (n / 10) (Nat.digitChar (n % 10) :: ds) hlt
      refine ⟨L ++ [Nat.digitChar (n % 10)], ?_, by simp, ?_, ?_⟩
      · simp [Nat.toDigitsCore, h0, hL]
      · intro c hc
        rcases List.mem_append.mp hc with hc | hc
        · exact hall c hc
        · rw [List.mem_singleton] at hc
          rw [hc]
          exact hd.1
      · rw [digitsVal_append_singleton, hval, hd.2]
        omega

theorem toString_nat_spec (m : Nat) :
    ∃ L, (toString m).toList = L ∧ L ≠ [] ∧ (∀ c ∈ L, c.isDigit = true) ∧ digitsVal L = m := by
  obtain ⟨L, hL, hne, hall, hval⟩ := toDigitsCore_spec (m + 1) m [] (by omega)
  refine ⟨L, ?_, hne, hall, hval⟩
  show (Nat.repr m).toList = L
  simp [Nat.repr, Nat.toDigits, hL, List.asString]

theorem not_whitespace_of_isDigit {c : Char} (h : c.isDigit = true) :
    isStrWhiteSpaceChar c = false := by
  simp only [Char.isDigit, Bool.and_eq_true, decide_eq_true_eq] at h
  have h1 : 48 ≤ c.toNat := h.1
  have h2 : c.toNat ≤ 57 := h.2
  simp only [isStrWhiteSpaceChar, Bool.or_eq_false_iff, decide_eq_false_iff_not,
    Bool.and_eq_false_imp, decide_eq_true_eq]
  omega

theorem takeSign_of_isDigit {c : Char} (cs : List Char) (h : c.isDigit = true) :
    takeSign (c :: cs) = (false, c :: cs) := by
  unfold takeSign
  split
  · rename_i heq
    simp only [List.cons.injEq] at heq
    rw [heq.1] at h
    exact absurd h (by decide)
  · rename_i heq
    simp only [List.cons.injEq] at heq
    rw [heq.1] at h
    exact absurd h (by decide)
  · rfl

theorem parseIntMagnitude_digits {L : List Char} (hne : L ≠ [])
    (hall : ∀ c ∈ L, c.isDigit = true) : parseIntMagnitude L = some (digitsVal L) := by
  have htw : L.takeWhile Char.isDigit = L := List.takeWhile_eq_self_iff.mpr hall
  unfold parseIntMagnitude
  split
  · have := hall 'x' (by simp)
    exact absurd this (by decide)
  · have := hall 'X' (by simp)
    exact absurd this (by decide)
  · simp [htw, hne]

theorem parseInt_digits {L : List Char} (hne : L ≠ []) (hall : ∀ c ∈ L, c.isDigit = true) :
    parseInt (some (String.mk L)) = some (roundInt (digitsVal L : Int)) := by
  obtain ⟨c, cs, rfl⟩ := List.exists_cons_of_ne_nil hne
  have hc : c.isDigit = true := hall c (by simp)
  have hdrop : (c :: cs).dropWhile isStrWhiteSpaceChar = c :: cs := by
    rw [List.dropWhile_cons, not_whitespace_of_isDigit hc]
    simp
  simp only [parseInt, String.toList, hdrop, takeSign_of_isDigit cs hc,
    parseIntMagnitude_digits hne hall]
  simp

theorem parseInt_neg_digits {L : List Char} (hne : L ≠ [])
    (hall : ∀ c ∈ L, c.isDigit = true) :
    parseInt (some (String.mk ('-' :: L))) = some (roundInt (-(digitsVal L : Int))) := by
  have hdrop : ('-' :: L).dropWhile isStrWhiteSpaceChar = '-' :: L := by
    rw [List.dropWhile_cons]
    have : isStrWhiteSpaceChar '-' = false := by decide
    simp [this]
  have hs : takeSign ('-' :: L) = (true, L) := rfl
  simp only [parseInt, String.toList, hdrop, hs, parseIntMagnitude_digits hne hall]
  simp


/-- Up to magnitude `2^53` every integer is a binary64 value. -/
theorem roundInt_eq {z : Int} (h : z.natAbs ≤ 2 ^ 53) : roundInt z = z := by
  unfold roundInt
  rw [if_pos h]

/-- Reading back the text written by `nextId.toString()` gives the same integer, for a
counter of magnitude up to `2^53`. -/
theorem parseInt_toString (n : Int) (h : n.natAbs ≤ 2 ^ 53) :
    parseInt (some (toString n)) = some n := by
  cases n with
  | ofNat m =>
    obtain ⟨L, hL, hne, hall, hval⟩ := toString_nat_spec m
    have hs : toString (Int.ofNat m) = String.mk L := by
      show toString m = String.mk L
      rw [← hL]
      rfl
    rw [hs, parseInt_digits hne hall, hval]
    exact congrArg some (roundInt_eq h)
  | negSucc m =>
    obtain ⟨L, hL, hne, hall, hval⟩ := toString_nat_spec (m + 1)
    have hs : toString (Int.negSucc m) = String.mk ('-' :: L) := by
      show "-" ++ toString (m + 1) = String.mk ('-' :: L)
      rw [← hL]
      rfl
    rw [hs, parseInt_neg_digits hne hall, hval]
    exact congrArg some (roundInt_eq h)

/-- Line 3 applied to a written counter of magnitude up to `2^53`: the same integer,
except that `0` reads as `1`. -/
theorem loadNextId_toString (n : Int) (h : n.natAbs ≤ 2 ^ 53) :
    loadNextId (some (toString n)) = if n = 0 then 1 else n := by
  simp [loadNextId, parseInt_toString n h]

/-! ## Agreement between the variables and `localStorage` -/

theorem jsonRoundTrip_of_finite {t : Transaction} (h : t.amount.isFinite = true) :
    jsonRoundTrip t = t := by
  simp [jsonRoundTrip, h]

theorem jsonRoundTrip_finite (t : Transaction) : (jsonRoundTrip t).amount.isFinite = true := by
  unfold jsonRoundTrip
  by_cases h : t.amount.isFinite = true
  · simp [h]
  · simp only [h]
    rw [zero_eq]
    rfl

theorem map_jsonRoundTrip_of_finite {ts : List Transaction}
    (h : ∀ t ∈ ts, t.amount.isFinite = true) : ts.map jsonRoundTrip = ts := by
  induction ts with
  | nil => rfl
  | cons t rest ih =>
    rw [List.map_cons, jsonRoundTrip_of_finite (h t (by simp)),
      ih (fun x hx => h x (by simp [hx]))]

/-- What has been loaded holds finite amounts only. -/
theorem loadTransactions_finite {stored : StoredCollection} {ts : List Transaction}
    (h : loadTransactions stored = .ok ts) : ∀ t ∈ ts, t.amount.isFinite = true := by
  cases stored with
  | absent =>
    simp only [loadTransactions, Except.ok.injEq] at h
    subst h
    simp
  | array ts0 =>
    simp only [loadTransactions, Except.ok.injEq] at h
    subst h
    intro t ht
    obtain ⟨t0, _, rfl⟩ := List.mem_map.mp ht
    exact jsonRoundTrip_finite t0
  | malformed text => simp [loadTransactions] at h

theorem synced_iff (s : Store) :
    Synced s ↔ loadTransactions s.storedTransactions = .ok s.transactions ∧
      loadNextId s.storedNextId = s.nextId := by
  unfold Synced loadState
  cases h : loadTransactions s.storedTransactions with
  | error e => simp
  | ok ts =>
    obtain ⟨transactions, nextId, storedTransactions, storedNextId⟩ := s
    simp only [Except.ok.injEq, Store.mk.injEq, and_true]

/-- What lines 2-3 return is in agreement with the stored values it was read from. -/
theorem synced_of_loadState {storedTransactions : StoredCollection}
    {storedNextId : Option String} {s : Store}
    (h : loadState storedTransactions storedNextId = .ok s) : Synced s := by
  unfold loadState at h
  cases hl : loadTransactions storedTransactions with
  | error e => simp [hl] at h
  | ok ts =>
    simp only [hl, Except.ok.injEq] at h
    subst h
    rw [synced_iff]
    exact ⟨hl, rfl⟩

theorem sampleTransactions_finite (now1 now2 now3 : String) :
    ∀ t ∈ sampleTransactions now1 now2 now3, t.amount.isFinite = true := by
  have h1 : (3000 : JSNumber).isFinite = true := by decide
  have h2 : (150.75 : JSNumber).isFinite = true := by decide
  have h3 : (45.20 : JSNumber).isFinite = true := by decide
  simp [sampleTransactions, h1, h2, h3]

theorem loadNextId_4 : loadNextId (some "4") = 4 := by decide

theorem toString_4 : toString (4 : Int) = "4" := by decide

/-- `addSampleData` keeps the agreement. -/
theorem synced_addSampleData (now1 now2 now3 : String) {s : Store} (h : Synced s) :
    Synced (addSampleData now1 now2 now3 s) := by
  unfold addSampleData
  split
  · rw [synced_iff]
    refine ⟨?_, ?_⟩
    · show Except.ok ((sampleTransactions now1 now2 now3).map jsonRoundTrip) = _
      rw [map_jsonRoundTrip_of_finite (sampleTransactions_finite now1 now2 now3)]
    · simp [toString_4, loadNextId_4]
  · exact h

/-- An accepted submission writes both keys, so the stored values agree with the
variables afterwards, provided that the counter is within `2^53`, that the amounts are
finite (an infinite amount is written as `null`) and that the new counter is not `0`
(which would be read back as `1`). -/
theorem synced_after_accepted_add (formData : FormData) (now : String) (s : Store)
    (hacc : (handleFormSubmit formData now s).pushed.isSome = true)
    (hlow : -(2 ^ 53 : Int) ≤ s.nextId) (hhigh : s.nextId + 1 ≤ 2 ^ 53)
    (h0 : s.nextId + 1 ≠ 0)
    (hfin : ∀ t ∈ (handleFormSubmit formData now s).store.transactions,
      t.amount.isFinite = true) :
    Synced (handleFormSubmit formData now s).store := by
  rw [handleFormSubmit_pushed] at hacc
  obtain ⟨t, ht⟩ := Option.isSome_iff_exists.mp hacc
  have hstore : (handleFormSubmit formData now s).store =
      { transactions := s.transactions ++ [t]
        nextId := s.nextId + 1
        storedTransactions := .array (s.transactions ++ [t])
        storedNextId := some (toString (s.nextId + 1)) } := by
    simp [handleFormSubmit, ht, jsIncrement_eq hlow hhigh]
  rw [hstore] at hfin ⊢
  rw [synced_iff]
  refine ⟨?_, ?_⟩
  · show Except.ok ((s.transactions ++ [t]).map jsonRoundTrip) = _
    rw [map_jsonRoundTrip_of_finite hfin]
  · show loadNextId (some (toString (s.nextId + 1))) = s.nextId + 1
    rw [loadNextId_toString _ (by omega), if_neg h0]

/-- A confirmed deletion writes the collection and leaves the counter alone, so it
keeps the agreement. -/
theorem synced_after_delete (id : Int) {s : Store} (h : Synced s) :
    Synced (deleteTransaction true id s) := by
  rw [synced_iff] at h ⊢
  refine ⟨?_, h.2⟩
  have hfin := loadTransactions_finite h.1
  show Except.ok ((s.transactions.filter (fun t => t.id ≠ id)).map jsonRoundTrip) = _
  rw [map_jsonRoundTrip_of_finite (fun t ht => hfin t (List.mem_filter.mp ht).1)]
  rfl

/-- A rejected submission breaks the agreement while the counter is below `2^53`: the
counter in memory is one ahead of the stored one. -/
theorem not_synced_after_rejected_add (formData : FormData) (now : String) {s : Store}
    (h : Synced s) (hrej : (handleFormSubmit formData now s).pushed = none)
    (hlow : -(2 ^ 53 : Int) ≤ s.nextId) (hhigh : s.nextId + 1 ≤ 2 ^ 53) :
    ¬ Synced (handleFormSubmit formData now s).store := by
  rw [handleFormSubmit_pushed] at hrej
  rw [synced_iff] at h ⊢
  rw [handleFormSubmit_rejected formData now s hrej]
  intro hc
  have h1 : loadNextId s.storedNextId = jsIncrement s.nextId := hc.2
  rw [h.2, jsIncrement_eq hlow hhigh] at h1
  omega

theorem pageLoad_empty (now1 now2 now3 : String) :
    pageLoad now1 now2 now3 .absent none = .ok (firstVisit now1 now2 now3) := rfl

/-! ## Persistence and module load -/

theorem firstVisit_eq (now1 now2 now3 : String) :
    firstVisit now1 now2 now3 =
      { transactions := sampleTransactions now1 now2 now3
        nextId := 4
        storedTransactions := .array (sampleTransactions now1 now2 now3)
        storedNextId := some "4" } := by
  simp [firstVisit, addSampleData, emptyStore, toString_4]

/-- C9. A rejected submission at a concrete input: on a first visit the stored values
reload to exactly the state in memory (counter 4); after a form with an empty amount is
rejected the counter in memory is 5 while the stored counter is still the text `4`, so
a reload yields the same collection with counter 4, not 5. -/
theorem rejected_add_leaves_stored_counter_behind :
    loadState (firstVisit "a" "b" "c").storedTransactions (firstVisit "a" "b" "c").storedNextId =
      .ok (firstVisit "a" "b" "c") ∧
    (handleFormSubmit noAmountForm "t" (firstVisit "a" "b" "c")).store.nextId = 5 ∧
    (handleFormSubmit noAmountForm "t" (firstVisit "a" "b" "c")).store.storedNextId =
      some "4" ∧
    loadState (handleFormSubmit noAmountForm "t" (firstVisit "a" "b" "c")).store.storedTransactions
        (handleFormSubmit noAmountForm "t" (firstVisit "a" "b" "c")).store.storedNextId =
      .ok { (handleFormSubmit noAmountForm "t" (firstVisit "a" "b" "c")).store with
            nextId := 4 } := by
  have hm := map_jsonRoundTrip_of_finite (sampleTransactions_finite "a" "b" "c")
  simp [firstVisit_eq, handleFormSubmit, buildTransaction_noAmount, loadState, loadTransactions,
    loadNextId_4, jsIncrement_4, hm]

/-- What the two loading lines do with each kind of stored value. -/
theorem loadState_cases (stored : Option String) :
    (∀ text, loadState (.malformed text) stored = .error .syntaxError) ∧
    loadState .absent stored =
      .ok { transactions := [], nextId := loadNextId stored,
            storedTransactions := .absent, storedNextId := stored } ∧
    (∀ ts, loadState (.array ts) stored =
      .ok { transactions := ts.map jsonRoundTrip, nextId := loadNextId stored,
            storedTransactions := .array ts, storedNextId := stored }) ∧
    loadNextId none = 1 ∧
    (parseInt stored = none → loadNextId stored = 1) := by
  refine ⟨fun _ => rfl, rfl, fun _ => rfl, rfl, fun h => ?_⟩
  simp [loadNextId, h]

/-- C10. Loading at a concrete input: with the malformed text `{` stored under
`'transactions'` the load ends in a `SyntaxError` instead of a state with an empty
collection, although the stored counter `4` is well formed; with both keys absent, or
with an unparseable counter text, it yields the empty collection and counter 1. -/
theorem malformed_collection_aborts_load :
    loadState (.malformed "\x7b") (some "4") = .error .syntaxError ∧
    loadState .absent none = .ok emptyStore ∧
    loadState .absent (some "abc") = .ok { emptyStore with storedNextId := some "abc" } := by
  refine ⟨rfl, rfl, ?_⟩
  have h : loadNextId (some "abc") = 1 := by decide
  simp [loadState, loadTransactions, h, emptyStore]

/-! ## The statements at concrete inputs -/

theorem sampleTransactions_types (now1 now2 now3 : String) :
    ∀ t ∈ sampleTransactions now1 now2 now3, t.type = "income" ∨ t.type = "expense" := by
  simp [sampleTransactions]

/-- C3 at a concrete input: the salary form is accepted on the empty store, and the
record pushed is appended with the parsed amount 3000 and the id 1. -/
theorem add_accepts_iff_witness :
    (handleFormSubmit salaryForm "t" emptyStore).pushed =
      some { id := 1, amount := 3000, type := "income", category := "salary",
             paymentMethod := "bank-transfer", date := "2025-10-01",
             description := "Monthly salary", timestamp := "t" } ∧
    (handleFormSubmit salaryForm "t" emptyStore).store.transactions =
      emptyStore.transactions ++
        [{ id := 1, amount := 3000, type := "income", category := "salary",
           paymentMethod := "bank-transfer", date := "2025-10-01",
           description := "Monthly salary", timestamp := "t" }] ∧
    (3000 : JSNumber) = parseFloat salaryForm.amount ∧ (3000 : JSNumber) ≠ .nan ∧
    (3000 : JSNumber).isZero = false ∧ (1 : Int) = emptyStore.nextId :=
  have hp : (handleFormSubmit salaryForm "t" emptyStore).pushed =
      some { id := 1, amount := 3000, type := "income", category := "salary",
             paymentMethod := "bank-transfer", date := "2025-10-01",
             description := "Monthly salary", timestamp := "t" } := by
    simp [handleFormSubmit, buildTransaction_salary, emptyStore]
  ⟨hp, (add_accepts_iff salaryForm "t" emptyStore).2.1 _ hp⟩

/-- C5 at a concrete input: no sample record has id 99, and deleting id 99 on a first
visit leaves the collection as it was. -/
theorem deleteTransaction_removes_idempotent_witness :
    (∀ t ∈ (firstVisit "a" "b" "c").transactions, t.id ≠ 99) ∧
    (deleteTransaction true 99 (firstVisit "a" "b" "c")).transactions =
      (firstVisit "a" "b" "c").transactions :=
  have h : ∀ t ∈ (firstVisit "a" "b" "c").transactions, t.id ≠ 99 := by
    simp [firstVisit_eq, sampleTransactions]
  ⟨h, (deleteTransaction_removes_idempotent 99 (firstVisit "a" "b" "c")).2.2.2.2.2.2 h⟩

/-! ## The counter over the store's lifetime -/

theorem lifetimeStep_add (l : Lifetime) (formData : FormData) (now : String) :
    lifetimeStep l (.add formData now) =
      .ok { store := (handleFormSubmit formData now l.store).store
            issued := l.issued ++
              (handleFormSubmit formData now l.store).pushed.toList.map (fun t => t.id) } :=
  rfl

theorem lifetimeStep_remove (l : Lifetime) (confirmed : Bool) (id : Int) :
    lifetimeStep l (.remove confirmed id) =
      .ok { store := deleteTransaction confirmed id l.store, issued := l.issued } :=
  rfl

/-- A reload is `pageLoad` on the stored values. -/
theorem lifetimeStep_reload_store (l l1 : Lifetime) (now1 now2 now3 : String)
    (h : lifetimeStep l (.reload now1 now2 now3) = .ok l1) :
    pageLoad now1 now2 now3 l.store.storedTransactions l.store.storedNextId = .ok l1.store := by
  unfold lifetimeStep at h
  unfold pageLoad
  cases hl : loadState l.store.storedTransactions l.store.storedNextId with
  | error e => simp [hl] at h
  | ok s =>
    simp only [hl, Except.ok.injEq] at h
    rw [← h]

/-- The first page load on empty storage creates the three sample records. -/
theorem lifetimeStep_first_load (now1 now2 now3 : String) :
    lifetimeStep beforeFirstLoad (.reload now1 now2 now3) =
      .ok { store := firstVisit now1 now2 now3, issued := [1, 2, 3] } := by
  have h1 : loadNextId none = 1 := rfl
  simp [lifetimeStep, beforeFirstLoad, emptyStore, loadState, loadTransactions, firstVisit,
    sampleIds, sampleTransactions, h1]

theorem counterAhead_first_load (now1 now2 now3 : String) :
    CounterAhead { store := firstVisit now1 now2 now3, issued := [1, 2, 3] } := by
  rw [firstVisit_eq]
  refine ⟨?_, ?_, ?_, ?_, ⟨_, rfl⟩⟩
  · simp [loadNextId_4]
  · simp [loadNextId_4]
  · simp [loadNextId_4]
  · simp

/-- Every event other than a reload that finds an empty collection keeps the stored
counter above all issued ids, as long as the counter is below `2^53`; the counter in
memory goes up by one at most. -/
theorem counterAhead_step (l : Lifetime) (e : Event) (h : CounterAhead l)
    (hhigh : l.store.nextId + 1 ≤ 2 ^ 53)
    (hne : ∀ now1 now2 now3, e = .reload now1 now2 now3 →
      loadTransactions l.store.storedTransactions ≠ .ok []) :
    ∃ l1, lifetimeStep l e = .ok l1 ∧ CounterAhead l1 ∧
      l1.store.nextId ≤ l.store.nextId + 1 := by
  obtain ⟨hiss, hle, hpos, hinc, ts, hts⟩ := h
  have hinc1 : jsIncrement l.store.nextId = l.store.nextId + 1 :=
    jsIncrement_eq (by omega) hhigh
  cases e with
  | add formData now =>
    refine ⟨_, lifetimeStep_add l formData now, ?_⟩
    cases hb : buildTransaction formData now l.store.nextId with
    | none =>
      have hp : (handleFormSubmit formData now l.store).pushed = none := by
        rw [handleFormSubmit_pushed, hb]
      rw [handleFormSubmit_rejected formData now l.store hb, hinc1]
      refine ⟨⟨?_, ?_, hpos, ?_, ⟨ts, hts⟩⟩, le_refl _⟩
      · simpa using hiss
      · show loadNextId l.store.storedNextId ≤ l.store.nextId + 1
        omega
      · simpa using hinc
    | some t =>
      have hid : t.id = l.store.nextId := buildTransaction_id hb
      have hn0 : ¬ l.store.nextId + 1 = 0 := by omega
      have hstore : (handleFormSubmit formData now l.store).store =
          { transactions := l.store.transactions ++ [t]
            nextId := l.store.nextId + 1
            storedTransactions := .array (l.store.transactions ++ [t])
            storedNextId := some (toString (l.store.nextId + 1)) } := by
        simp [handleFormSubmit, hb, hinc1]
      have hp : (handleFormSubmit formData now l.store).pushed = some t := by
        rw [handleFormSubmit_pushed, hb]
      have hl : loadNextId (some (toString (l.store.nextId + 1))) = l.store.nextId + 1 := by
        rw [loadNextId_toString _ (by omega), if_neg hn0]
      rw [hstore, hp]
      refine ⟨⟨?_, ?_, ?_, ?_, ⟨_, rfl⟩⟩, le_refl _⟩
      · show ∀ i ∈ l.issued ++ [t.id], i < loadNextId (some (toString (l.store.nextId + 1)))
        rw [hl]
        intro i hi
        rcases List.mem_append.mp hi with hi | hi
        · have := hiss i hi
          omega
        · rw [List.mem_singleton] at hi
          omega
      · show loadNextId (some (toString (l.store.nextId + 1))) ≤ l.store.nextId + 1
        rw [hl]
      · show 0 < loadNextId (some (toString (l.store.nextId + 1)))
        rw [hl]
        omega
      · show (l.issued ++ [t.id]).Pairwise (fun a b => a < b)
        rw [List.pairwise_append]
        refine ⟨hinc, List.pairwise_singleton _ _, ?_⟩
        intro a ha b hb1
        rw [List.mem_singleton] at hb1
        have := hiss a ha
        omega
  | remove confirmed id =>
    refine ⟨_, lifetimeStep_remove l confirmed id, ?_⟩
    cases confirmed with
    | false => exact ⟨⟨hiss, hle, hpos, hinc, ⟨ts, hts⟩⟩, by simp [deleteTransaction]⟩
    | true => exact ⟨⟨hiss, hle, hpos, hinc, ⟨_, rfl⟩⟩, by simp [deleteTransaction]⟩
  | reload now1 now2 now3 =>
    have hne1 : ts ≠ [] := by
      intro hnil
      apply hne now1 now2 now3 rfl
      rw [hts, hnil]
    have hlen : ¬ ts.length = 0 := by
      intro h0
      exact hne1 (List.length_eq_zero.mp h0)
    refine ⟨{ store := { transactions := ts
                         nextId := loadNextId l.store.storedNextId
                         storedTransactions := l.store.storedTransactions
                         storedNextId := l.store.storedNextId }
              issued := l.issued }, ?_, ?_, ?_⟩
    · simp [lifetimeStep, loadState, hts, addSampleData, sampleIds, hlen]
    · exact ⟨hiss, le_refl _, hpos, hinc, ⟨ts, hts⟩⟩
    · show loadNextId l.store.storedNextId ≤ l.store.nextId + 1
      omega

/-- As long as no reload finds an empty stored collection and the counter stays within
`2^53`, the run does not throw and ends with the stored counter above all issued ids. -/
theorem counterAhead_run (events : List Event) :
    ∀ l : Lifetime, CounterAhead l → l.store.nextId + events.length ≤ 2 ^ 53 →
      NoEmptyReload l events → ∃ l1, lifetimeRun l events = .ok l1 ∧ CounterAhead l1 := by
  induction events with
  | nil => intro l h _ _; exact ⟨l, rfl, h⟩
  | cons e es ih =>
    intro l h hhigh hno
    simp only [List.length_cons, Nat.cast_add, Nat.cast_one] at hhigh
    obtain ⟨l1, hstep, h1, hle⟩ := counterAhead_step l e h (by omega) hno.1
    obtain ⟨l2, hrun, h2⟩ := ih l1 h1 (by omega) (hno.2 l1 hstep)
    exact ⟨l2, by simp [lifetimeRun, hstep, hrun], h2⟩

/-- What does hold over a lifetime: from empty storage, as long as no reload after the
first load finds an empty stored collection and the events are few enough for the
counter to stay within `2^53`, the counter in memory stays strictly above every id
issued so far and no id is issued twice. -/
theorem ids_unique_without_empty_reload (now1 now2 now3 : String) (events : List Event)
    (hlen : (4 : Int) + events.length ≤ 2 ^ 53)
    (hno : NoEmptyReload { store := firstVisit now1 now2 now3, issued := [1, 2, 3] } events) :
    ∃ l, lifetimeRun beforeFirstLoad (.reload now1 now2 now3 :: events) = .ok l ∧
      (∀ i ∈ l.issued, i < l.store.nextId) ∧ l.issued.Nodup := by
  have hstart : ({ store := firstVisit now1 now2 now3, issued := [1, 2, 3] } :
      Lifetime).store.nextId + events.length ≤ 2 ^ 53 := by
    rw [firstVisit_eq]
    exact hlen
  obtain ⟨l, hrun, hiss, hle, _, hinc, _⟩ :=
    counterAhead_run events _ (counterAhead_first_load now1 now2 now3) hstart hno
  refine ⟨l, by simp [lifetimeRun, lifetimeStep_first_load, hrun], ?_, ?_⟩
  · intro i hi
    have := hiss i hi
    omega
  · exact hinc.imp (fun hab => ne_of_lt hab)

/-- The lifetime statement at a concrete input: after the first load, a rejected add, a
confirmed deletion of id 2 and a reload (which finds two records), the counter is above
the issued ids 1, 2, 3. -/
theorem ids_unique_without_empty_reload_example :
    NoEmptyReload { store := firstVisit "a" "b" "c", issued := [1, 2, 3] }
        [.add noAmountForm "t", .remove true 2, .reload "d" "e" "f"] ∧
    ∃ l, lifetimeRun beforeFirstLoad
          [.reload "a" "b" "c", .add noAmountForm "t", .remove true 2, .reload "d" "e" "f"] =
        .ok l ∧
      (∀ i ∈ l.issued, i < l.store.nextId) ∧ l.issued.Nodup :=
  have hno : NoEmptyReload { store := firstVisit "a" "b" "c", issued := [1, 2, 3] }
      [.add noAmountForm "t", .remove true 2, .reload "d" "e" "f"] := by
    simp [NoEmptyReload, lifetimeStep, firstVisit_eq, handleFormSubmit,
      buildTransaction_noAmount, deleteTransaction, loadTransactions, sampleTransactions]
  ⟨hno, ids_unique_without_empty_reload "a" "b" "c" _ (by decide) hno⟩

/-- C11. A lifetime at a concrete input: first load on empty storage (sample ids 1, 2, 3,
counter 4), one accepted add (id 4, counter 5), deletion of the four records, reload.
The reload finds an empty collection, so `addSampleData` creates records with the ids 1,
2, 3 again and sets the counter to 4: the counter is not above the id 4 issued earlier,
and the ids 1, 2, 3 have been issued twice. One more accepted add then issues the id 4 a
second time. -/
theorem reload_after_deleting_all_reissues_ids :
    (lifetimeRun beforeFirstLoad deleteAllThenReload).map
        (fun l => (l.store.nextId, l.issued)) =
      .ok (4, [1, 2, 3, 4, 1, 2, 3]) ∧
    (lifetimeRun beforeFirstLoad (deleteAllThenReload ++ [.add groceriesForm "t2"])).map
        (fun l => (l.store.transactions.map (fun t => t.id), l.issued)) =
      .ok ([1, 2, 3, 4], [1, 2, 3, 4, 1, 2, 3, 4]) := by
  have h5 : loadNextId (some (toString (5 : Int))) = 5 := by decide
  constructor <;>
  simp [deleteAllThenReload, lifetimeRun, lifetimeStep, beforeFirstLoad, emptyStore, loadState,
    loadTransactions, addSampleData, sampleIds, sampleTransactions, handleFormSubmit,
    buildTransaction_salary, buildTransaction_groceries, deleteTransaction, toString_4,
    loadNextId_4, h5, jsIncrement_4, Except.map]

end ExpenseTracker
